import Mathlib

/-!
Verification development for the codebase-mapper scripts
(`map_csharp.py`, `map_python.py`, `map_typescript.py`).

The three mappers are shallowly embedded:
* the shared brace balancer (`find_type_end` / `find_block_end`) is a
  structural recursion over the character list;
* the regex-based declaration matchers are embedded through a small
  backtracking matcher (`mEval`) with Python `re` semantics: leftmost
  match, greedy / lazy repetition with full backtracking, ordered
  alternation, and named groups capturing the text of their *last*
  repetition (`python` keeps only the final iteration of a repeated
  group — this detail is observable in the extractors and is modelled
  exactly);
* external collaborators (the OS file tree, the Python `ast` parser,
  text decoding of raw bytes) are modelled as explicit inputs: a file is
  given as its byte/character content or as an already-parsed syntax
  tree, together with the outcome of the external decode/parse step.

Python-specific conventions used throughout:
* `str.__contains__` (the `in` operator on strings) is substring search,
  embedded as `strContains`;
* Python slices `s[a:b]` become `(l.drop a).take (b - a)`;
* a Python `set` is modelled as a list that is only ever queried through
  membership;
* `sorted` is stable; it is embedded as a stable insertion sort.
-/

/-- Boolean substring test: Python's `sub in s` on strings. -/
def strContains (s sub : String) : Bool :=
  (List.range (s.toList.length + 1)).any (fun i => sub.toList.isPrefixOf (s.toList.drop i))

/-- Boolean test that `p` is a prefix of `s` (Python `s.startswith(p)`). -/
def strStarts (s p : String) : Bool := p.toList.isPrefixOf s.toList

/-- Boolean test that `p` is a suffix of `s` (Python `s.endswith(p)`). -/
def strEnds (s p : String) : Bool := p.toList.isSuffixOf s.toList

/-- Helper of `pySplitChar`: split at every separator occurrence. -/
def pySplitCharAux (sep : Char) : List Char → List Char → List String
  | [], cur => [String.mk cur.reverse]
  | c :: rest, cur =>
    if c = sep then String.mk cur.reverse :: pySplitCharAux sep rest []
    else pySplitCharAux sep rest (c :: cur)

/-- Python `s.split(sep)` for a one-character separator (every
separator in the mappers is a single character). -/
def pySplitChar (s : String) (sep : Char) : List String :=
  pySplitCharAux sep s.toList []

/-- Python string comparison (`<` on strings, code-point lexicographic). -/
def charListLt : List Char → List Char → Bool
  | [], [] => false
  | [], _ :: _ => true
  | _ :: _, [] => false
  | a :: as, b :: bs =>
    if a.val < b.val then true
    else if b.val < a.val then false
    else charListLt as bs

/-- Python `<` on strings. -/
def strLt (a b : String) : Bool := charListLt a.toList b.toList

/-- Stable insertion into a list sorted by the strict order `lt`:
new elements land after existing equal keys, as Python's stable `sorted`. -/
def stableInsert (lt : α → α → Bool) (x : α) : List α → List α
  | [] => [x]
  | y :: ys => if lt x y then x :: y :: ys else y :: stableInsert lt x ys

/-- Stable sort (Python `sorted` with a key-derived strict order `lt`). -/
def stableSort (lt : α → α → Bool) (l : List α) : List α :=
  l.foldl (fun acc x => stableInsert lt x acc) []

/-- Python `str.strip()`: drop ASCII whitespace from both ends. -/
def pySpace (c : Char) : Bool :=
  c == ' ' || c == '\t' || c == '\n' || c == '\x0d' || c == '\x0c' || c == '\x0b'

/-- Python `str.strip()` on a string. -/
def pyStrip (s : String) : String :=
  String.mk (((s.toList.dropWhile pySpace).reverse.dropWhile pySpace).reverse)

/-- Word character for Python's `\w` (ASCII input assumed). -/
def isWordChar (c : Char) : Bool := c.isAlphanum || c == '_'

/-- Entry append for a `defaultdict(list)`-backed grouping: append `v` to
the list at key `k`, creating the key at the end in insertion order. -/
def dictAppend (d : List (String × List α)) (k : String) (v : α) : List (String × List α) :=
  match d with
  | [] => [(k, [v])]
  | (k', vs) :: rest =>
    if k' = k then (k', vs ++ [v]) :: rest else (k', vs) :: dictAppend rest k v

/-! ## The regex matcher

`Rx` mirrors the constructs appearing in the mappers' patterns.  `mEval`
is a continuation-passing backtracking evaluator over the subject text
with an absolute position; the fuel argument only bounds the call depth
and is chosen large enough to never be exhausted on the inputs used. -/

/-- Capture environment: name of a group to the text of its last match. -/
abbrev Caps := List (String × String)

/-- Lookup of a named group; an unset group behaves as Python's
`m.group(g) or ''` (all uses in the mappers coerce `None` to `''` or
only test truthiness). -/
def capGet (caps : Caps) (g : String) : String :=
  match caps.find? (fun p => p.1 = g) with
  | some p => p.2
  | none => ""

/-- Regular-expression syntax used by the mappers.  `lit` is a literal
run, `cls` a character class, `star`/`starL` greedy and lazy Kleene
repetition, `opt` a greedy `?`, `grp` a named capturing group and
`assrt` a zero-width assertion over (text, position) such as `^` with
MULTILINE, `$`, or `\b`. -/
inductive Rx where
  | lit : List Char → Rx
  | cls : (Char → Bool) → Rx
  | seq : List Rx → Rx
  | alt : List Rx → Rx
  | star : Rx → Rx
  | starL : Rx → Rx
  | opt : Rx → Rx
  | grp : String → Rx → Rx
  | assrt : (List Char → Nat → Bool) → Rx

/-- Backtracking evaluation with Python `re` semantics: ordered
alternation, greedy (`star`, `opt`) and lazy (`starL`) repetition with
full backtracking, and a repeated group capturing its last iteration.
The continuation receives the position after the evaluated node. -/
def mEval : Nat → Rx → List Char → Nat → Caps →
    (Nat → Caps → Option (Nat × Caps)) → Option (Nat × Caps)
  | 0, _, _, _, _, _ => none
  | _ + 1, .lit s, t, p, caps, k =>
    if s.isPrefixOf (t.drop p) then k (p + s.length) caps else none
  | _ + 1, .cls q, t, p, caps, k =>
    match t.get? p with
    | some c => if q c then k (p + 1) caps else none
    | none => none
  | _ + 1, .seq [], _, p, caps, k => k p caps
  | f + 1, .seq (r :: rs), t, p, caps, k =>
    mEval f r t p caps (fun p' c' => mEval f (.seq rs) t p' c' k)
  | _ + 1, .alt [], _, _, _, _ => none
  | f + 1, .alt (r :: rs), t, p, caps, k =>
    match mEval f r t p caps k with
    | some res => some res
    | none => mEval f (.alt rs) t p caps k
  | f + 1, .star r, t, p, caps, k =>
    match mEval f r t p caps (fun p' c' =>
        if p < p' then mEval f (.star r) t p' c' k else none) with
    | some res => some res
    | none => k p caps
  | f + 1, .starL r, t, p, caps, k =>
    match k p caps with
    | some res => some res
    | none => mEval f r t p caps (fun p' c' =>
        if p < p' then mEval f (.starL r) t p' c' k else none)
  | f + 1, .opt r, t, p, caps, k =>
    match mEval f r t p caps k with
    | some res => some res
    | none => k p caps
  | f + 1, .grp g r, t, p, caps, k =>
    mEval f r t p caps (fun p' c' =>
      k p' ((g, String.mk ((t.drop p).take (p' - p))) :: c'))
  | _ + 1, .assrt q, t, p, caps, k =>
    if q t p then k p caps else none

/-- Fuel bound for `mEval`: generous and never reached on the mappers'
patterns (call depth grows linearly in the consumed text). -/
def rxFuel (t : List Char) : Nat := 1024 * (t.length + 4)

/-- Anchored match of `rx` at position `p` of `t`; returns the end
position and the captures of the successful path. -/
def matchAt (rx : Rx) (t : List Char) (p : Nat) : Option (Nat × Caps) :=
  mEval (rxFuel t) rx t p [] (fun p' caps => some (p', caps))

/-- One match record: start, end, captures. -/
structure RxMatch where
  mStart : Nat
  mEnd : Nat
  caps : Caps
deriving DecidableEq

/-- Scan of `finditer`: leftmost matches, resuming after each match
(advancing one position after an empty match, as Python does). -/
def findIterAux (rx : Rx) (t : List Char) : Nat → Nat → List RxMatch
  | _, 0 => []
  | p, fstep + 1 =>
    if p > t.length then []
    else match matchAt rx t p with
      | some (e, caps) =>
        ⟨p, e, caps⟩ :: findIterAux rx t (if p < e then e else p + 1) fstep
      | none => findIterAux rx t (p + 1) fstep

/-- Python `re.finditer` over the whole subject. -/
def findIter (rx : Rx) (t : List Char) : List RxMatch :=
  findIterAux rx t 0 (t.length + 1)

/-- Python `re.search`: the leftmost match, if any. -/
def rxSearch (rx : Rx) (t : List Char) : Option RxMatch :=
  (findIter rx t).head?

/-- Cut the (ordered, disjoint) spans out of `t`; helper of `rxSub`. -/
def cutSpans (t : List Char) : List (Nat × Nat) → Nat → List Char
  | [], pos => t.drop pos
  | (s, e) :: rest, pos => (t.drop pos).take (s - pos) ++ cutSpans t rest e

/-- Python `re.sub(rx, '', t)`: delete every non-overlapping match. -/
def rxSub (rx : Rx) (t : List Char) : List Char :=
  cutSpans t ((findIter rx t).map (fun m => (m.mStart, m.mEnd))) 0

/-- Shorthand: one-or-more repetition of a character class (`\w+` etc.),
greedy with backtracking, expressed as `X X*`. -/
def plusCls (q : Char → Bool) : Rx := .seq [.cls q, .star (.cls q)]

/-- Python `\s` as a character class. -/
def sCls : Rx := .cls pySpace

/-- Python `\s+`. -/
def sPlus : Rx := plusCls pySpace

/-- Python `\s*`. -/
def sStar : Rx := .star (.cls pySpace)

/-- Python `\w+`. -/
def wPlus : Rx := plusCls isWordChar

/-- Word-boundary assertion `\b`. -/
def wbAssert (t : List Char) (p : Nat) : Bool :=
  (if p = 0 then false
   else match t.get? (p - 1) with
        | some c => isWordChar c
        | none => false) !=
  (match t.get? p with
   | some c => isWordChar c
   | none => false)

/-- End-of-line assertion `$` under MULTILINE. -/
def eolAssert (t : List Char) (p : Nat) : Bool :=
  (p == t.length) || (t.get? p == some '\n')

/-- Start-of-line assertion `^` under MULTILINE. -/
def bolAssert (t : List Char) (p : Nat) : Bool :=
  (p == 0) || (t.get? (p - 1) == some '\n')

/-! ## The delimiter balancer

`find_type_end` (map_csharp.py) and `find_block_end`
(map_typescript.py) are the same loop: scan from `start`, count `{` up
and `}` down, return the position where the count first returns to zero
on a `}`, or the text length if the scan runs off the end. -/

/-- Depth contribution of one character. -/
def braceDelta (c : Char) : Int :=
  if c = '\x7b' then 1 else if c = '\x7d' then -1 else 0

/-- Signed brace-depth of a character run. -/
def braceDeltaSum : List Char → Int
  | [] => 0
  | c :: rest => braceDelta c + braceDeltaSum rest

/-- Loop of the balancer over the remaining characters `l`, current
absolute index `i`, running depth `d`, and the fallback result `n`
(the text length, returned when the scan exhausts the text). -/
def ftGo : List Char → Nat → Int → Nat → Nat
  | [], _, _, n => n
  | c :: rest, i, d, n =>
    if c = '\x7b' then ftGo rest (i + 1) (d + 1) n
    else if c = '\x7d' then
      if d - 1 = 0 then i else ftGo rest (i + 1) (d - 1) n
    else ftGo rest (i + 1) d n

/-- `find_type_end` from map_csharp.py. -/
def find_type_end (content : List Char) (start : Nat) : Nat :=
  ftGo (content.drop start) start 0 content.length

/-- `find_block_end` from map_typescript.py (same body as
`find_type_end`). -/
def find_block_end (content : List Char) (start : Nat) : Nat :=
  ftGo (content.drop start) start 0 content.length

lemma ftGo_step_ob (rest : List Char) (i : Nat) (d : Int) (n : Nat) :
    ftGo ('\x7b' :: rest) i d n = ftGo rest (i + 1) (d + 1) n := by
  simp [ftGo]

lemma ftGo_step_cb_ret (rest : List Char) (i : Nat) (d : Int) (n : Nat) (hd : d - 1 = 0) :
    ftGo ('\x7d' :: rest) i d n = i := by
  simp [ftGo, hd]

lemma ftGo_step_cb_go (rest : List Char) (i : Nat) (d : Int) (n : Nat) (hd : d - 1 ≠ 0) :
    ftGo ('\x7d' :: rest) i d n = ftGo rest (i + 1) (d - 1) n := by
  simp [ftGo, hd]

lemma ftGo_step_other (c : Char) (rest : List Char) (i : Nat) (d : Int) (n : Nat)
    (hob : c ≠ '\x7b') (hcb : c ≠ '\x7d') :
    ftGo (c :: rest) i d n = ftGo rest (i + 1) d n := by
  simp [ftGo, hob, hcb]

lemma braceDelta_other (c : Char) (hob : c ≠ '\x7b') (hcb : c ≠ '\x7d') :
    braceDelta c = 0 := by
  simp [braceDelta, hob, hcb]

lemma ftGo_cases (l : List Char) (i : Nat) (d : Int) (n : Nat) :
    ftGo l i d n = n ∨
    ∃ j, j < l.length ∧ ftGo l i d n = i + j ∧ l.get? j = some '\x7d' ∧
      d + braceDeltaSum (l.take (j + 1)) = 0 := by
  induction l generalizing i d with
  | nil => exact Or.inl rfl
  | cons c rest ih =>
    by_cases hob : c = '\x7b'
    · subst hob
      rcases ih (i + 1) (d + 1) with h | ⟨j, hj, hval, hget, hsum⟩
      · left; rw [ftGo_step_ob]; exact h
      · right
        refine ⟨j + 1, Nat.succ_lt_succ hj, ?_, by simpa using hget, ?_⟩
        · rw [ftGo_step_ob, hval]; omega
        · simp only [List.take_succ_cons, braceDeltaSum]
          have hb : braceDelta '\x7b' = 1 := by decide
          omega
    · by_cases hcb : c = '\x7d'
      · subst hcb
        by_cases hd : d - 1 = 0
        · right
          refine ⟨0, Nat.succ_pos _, ?_, by simp, ?_⟩
          · rw [ftGo_step_cb_ret _ _ _ _ hd]; omega
          · simp only [List.take_succ_cons, List.take_zero, braceDeltaSum]
            have hb : braceDelta '\x7d' = -1 := by decide
            omega
        · rcases ih (i + 1) (d - 1) with h | ⟨j, hj, hval, hget, hsum⟩
          · left; rw [ftGo_step_cb_go _ _ _ _ hd]; exact h
          · right
            refine ⟨j + 1, Nat.succ_lt_succ hj, ?_, by simpa using hget, ?_⟩
            · rw [ftGo_step_cb_go _ _ _ _ hd, hval]; omega
            · simp only [List.take_succ_cons, braceDeltaSum]
              have hb : braceDelta '\x7d' = -1 := by decide
              omega
      · rcases ih (i + 1) d with h | ⟨j, hj, hval, hget, hsum⟩
        · left; rw [ftGo_step_other _ _ _ _ _ hob hcb]; exact h
        · right
          refine ⟨j + 1, Nat.succ_lt_succ hj, ?_, by simpa using hget, ?_⟩
          · rw [ftGo_step_other _ _ _ _ _ hob hcb, hval]; omega
          · simp only [List.take_succ_cons, braceDeltaSum]
            have hb := braceDelta_other c hob hcb
            omega

lemma ftGo_exists (l : List Char) (i : Nat) (d : Int) (n : Nat)
    (h : ∃ j, j < l.length ∧ l.get? j = some '\x7d' ∧
      d + braceDeltaSum (l.take (j + 1)) = 0) :
    ∃ j, j < l.length ∧ ftGo l i d n = i + j := by
  induction l generalizing i d with
  | nil => rcases h with ⟨j, hj, _⟩; simp at hj
  | cons c rest ih =>
    rcases h with ⟨j, hj, hget, hsum⟩
    by_cases hob : c = '\x7b'
    · subst hob
      have hjpos : j ≠ 0 := by
        intro h0; rw [h0] at hget; simp at hget
      obtain ⟨j', rfl⟩ := Nat.exists_eq_succ_of_ne_zero hjpos
      have hrec : ∃ j0, j0 < rest.length ∧ ftGo rest (i + 1) (d + 1) n = (i + 1) + j0 := by
        apply ih
        refine ⟨j', Nat.lt_of_succ_lt_succ hj, by simpa using hget, ?_⟩
        simp only [List.take_succ_cons, braceDeltaSum] at hsum
        have hb : braceDelta '\x7b' = 1 := by decide
        omega
      rcases hrec with ⟨j0, hj0, hval⟩
      refine ⟨j0 + 1, Nat.succ_lt_succ hj0, ?_⟩
      rw [ftGo_step_ob, hval]; omega
    · by_cases hcb : c = '\x7d'
      · subst hcb
        by_cases hd : d - 1 = 0
        · exact ⟨0, Nat.succ_pos _, by rw [ftGo_step_cb_ret _ _ _ _ hd]; omega⟩
        · have hjpos : j ≠ 0 := by
            intro h0; rw [h0] at hsum
            simp only [List.take_succ_cons, List.take_zero, braceDeltaSum] at hsum
            have hb : braceDelta '\x7d' = -1 := by decide
            omega
          obtain ⟨j', rfl⟩ := Nat.exists_eq_succ_of_ne_zero hjpos
          have hrec : ∃ j0, j0 < rest.length ∧ ftGo rest (i + 1) (d - 1) n = (i + 1) + j0 := by
            apply ih
            refine ⟨j', Nat.lt_of_succ_lt_succ hj, by simpa using hget, ?_⟩
            simp only [List.take_succ_cons, braceDeltaSum] at hsum
            have hb : braceDelta '\x7d' = -1 := by decide
            omega
          rcases hrec with ⟨j0, hj0, hval⟩
          refine ⟨j0 + 1, Nat.succ_lt_succ hj0, ?_⟩
          rw [ftGo_step_cb_go _ _ _ _ hd, hval]; omega
      · have hjpos : j ≠ 0 := by
          intro h0; rw [h0] at hget; simp at hget
          exact hcb hget
        obtain ⟨j', rfl⟩ := Nat.exists_eq_succ_of_ne_zero hjpos
        have hrec : ∃ j0, j0 < rest.length ∧ ftGo rest (i + 1) d n = (i + 1) + j0 := by
          apply ih
          refine ⟨j', Nat.lt_of_succ_lt_succ hj, by simpa using hget, ?_⟩
          simp only [List.take_succ_cons, braceDeltaSum] at hsum
          have hb := braceDelta_other c hob hcb
          omega
        rcases hrec with ⟨j0, hj0, hval⟩
        refine ⟨j0 + 1, Nat.succ_lt_succ hj0, ?_⟩
        rw [ftGo_step_other _ _ _ _ _ hob hcb, hval]; omega

/-! ## The C# mapper (map_csharp.py)

Member/type/file records mirror the `NamedTuple`s of the source.  The
field `is_partial` of `TypeInfo` is rendered here as `isPart` and
`FileInfo.namespace` as `ns` (both source names clash with Lean
keywords/reserved tokens). -/

/-- `MemberInfo` (same shape in map_csharp.py and map_typescript.py). -/
structure MemberInfo where
  name : String
  kind : String
  is_async : Bool
deriving DecidableEq

/-- `TypeInfo` from map_csharp.py. -/
structure CsTypeInfo where
  name : String
  kind : String
  bases : List String
  members : List MemberInfo
  attributes : List String
  isPart : Bool
deriving DecidableEq

/-- `FileInfo` from map_csharp.py. -/
structure CsFileInfo where
  path : String
  ns : String
  types : List CsTypeInfo
  usings : List String
deriving DecidableEq

/-- Literal regex token from a string. -/
def litS (s : String) : Rx := .lit s.toList

/-- Character class `[\w\s,()="\.]` of the attribute patterns. -/
def csAttrChar (c : Char) : Bool :=
  isWordChar c || pySpace c || c == ',' || c == '(' || c == ')' || c == '=' || c == '\x22' || c == '.'

/-- Character class `[\w<>\[\],\s\?]` of the return/property-type groups. -/
def csRetChar (c : Char) : Bool :=
  isWordChar c || c == '<' || c == '>' || c == '[' || c == ']' || c == ',' || pySpace c || c == '?'

/-- Attribute block `(?P<attributes>(?:\[[\w\s,()="\.]+\]\s*)*)`. -/
def csAttrGroup : Rx :=
  .grp "attributes" (.star (.seq [litS "[", plusCls csAttrChar, litS "]", sStar]))

/-- `NAMESPACE_PATTERN` from map_csharp.py. -/
def csNamespaceRx : Rx :=
  .seq [.assrt bolAssert, sStar, litS "namespace", sPlus,
    .grp "1" (plusCls (fun c => isWordChar c || c == '.')), sStar,
    .cls (fun c => c == ';' || c == '\x7b')]

/-- `USING_PATTERN` from map_csharp.py. -/
def csUsingRx : Rx :=
  .seq [.assrt bolAssert, sStar, litS "using", sPlus, .opt (.seq [litS "static", sPlus]),
    .grp "1" (plusCls (fun c => isWordChar c || c == '.')), sStar, litS ";"]

/-- `TYPE_PATTERN` from map_csharp.py.  The named `modifiers` group sits
inside the repetition, hence it captures only the last modifier. -/
def csTypeRx : Rx :=
  .seq [csAttrGroup,
    .star (.grp "modifiers" (.seq [.alt [litS "public", litS "private", litS "protected",
      litS "internal", litS "static", litS "abstract", litS "sealed", litS "partial"], sPlus])),
    .grp "kind" (.alt [litS "class", litS "interface", litS "enum", litS "record", litS "struct"]),
    sPlus, .grp "name" wPlus,
    .opt (.seq [litS "<", plusCls (fun c => c != '>'), litS ">"]),
    .opt (.seq [sStar, litS ":", sStar, .grp "bases" (plusCls (fun c => c != '\x7b'))]),
    sStar, litS "\x7b"]

/-- `METHOD_PATTERN` from map_csharp.py. -/
def csMethodRx : Rx :=
  .seq [csAttrGroup,
    .star (.grp "modifiers" (.seq [.alt [litS "public", litS "private", litS "protected",
      litS "internal", litS "static", litS "virtual", litS "override", litS "abstract",
      litS "async"], sPlus])),
    .grp "return" (plusCls csRetChar), sPlus,
    .grp "name" wPlus, sStar,
    .opt (.seq [litS "<", plusCls (fun c => c != '>'), litS ">"]),
    litS "(", .grp "params" (.star (.cls (fun c => c != ')'))), litS ")"]

/-- `PROPERTY_PATTERN` from map_csharp.py. -/
def csPropRx : Rx :=
  .seq [csAttrGroup,
    .star (.grp "modifiers" (.seq [.alt [litS "public", litS "private", litS "protected",
      litS "internal", litS "static", litS "virtual", litS "override", litS "abstract"], sPlus])),
    .grp "type" (plusCls csRetChar), sPlus,
    .grp "name" wPlus, sStar,
    litS "\x7b", sStar, .alt [litS "get", litS "set", litS "init"]]

/-- `extract_attributes`: `re.findall(r'\[(\w+)', attr_str)`. -/
def extract_attributes (s : String) : List String :=
  (findIter (.seq [litS "[", .grp "1" wPlus]) s.toList).map (fun m => capGet m.caps "1")

/-- Pattern `\bwhere\b.*` used on the base-type list. -/
def csWhereRx : Rx :=
  .seq [.assrt wbAssert, litS "where", .assrt wbAssert, .star (.cls (fun c => c != '\n'))]

/-- Pattern `<[^>]+>` used to drop generic arguments. -/
def csGenericRx : Rx := .seq [litS "<", plusCls (fun c => c != '>'), litS ">"]

/-- Base-type list processing of `parse_type` (map_csharp.py lines
153-163): drop `where` clauses, split on commas, strip, drop empties,
strip generic parameters. -/
def csBasesOf (basesStr : String) : List String :=
  if basesStr = "" then []
  else
    let cleaned := String.mk (rxSub csWhereRx basesStr.toList)
    (pySplitChar cleaned ',').foldl (fun acc b =>
      let b' := pyStrip b
      if b' != "" then acc ++ [String.mk (rxSub csGenericRx b'.toList)] else acc) []

/-- Body of the method loop of `parse_type`: the two `continue` filters
followed by the `MemberInfo` construction. -/
def csMethodMember (typeName depth : String) (m : RxMatch) : Option MemberInfo :=
  let method_name := capGet m.caps "name"
  let method_modifiers := capGet m.caps "modifiers"
  if depth != "full" &&
      (strContains method_modifiers "private" || strContains method_modifiers "protected") then
    none
  else if method_name == typeName || method_name == "get" || method_name == "set" ||
      method_name == "add" || method_name == "remove" then
    none
  else some ⟨method_name ++ "()", "method", strContains method_modifiers "async"⟩

/-- Body of the property loop of `parse_type`. -/
def csPropMember (depth : String) (p : RxMatch) : Option MemberInfo :=
  let prop_modifiers := capGet p.caps "modifiers"
  if depth != "full" &&
      (strContains prop_modifiers "private" || strContains prop_modifiers "protected") then
    none
  else some ⟨capGet p.caps "name", "property", false⟩

/-- Member discovery of `parse_type` (map_csharp.py lines 167-205):
skipped entirely at depth `classes` and for enums; otherwise methods
then properties from the type body located by the balancer. -/
def csharp_type_members (name kind : String) (mStart mEnd : Nat) (content : List Char)
    (depth : String) : List MemberInfo :=
  if depth != "classes" && kind != "enum" then
    let type_body := (content.drop mEnd).take (find_type_end content mStart - mEnd)
    (findIter csMethodRx type_body).filterMap (csMethodMember name depth) ++
      (findIter csPropRx type_body).filterMap (csPropMember depth)
  else []

/-- `parse_type` from map_csharp.py. -/
def csharp_parse_type (m : RxMatch) (content : List Char) (depth : String) : CsTypeInfo :=
  let modifiers := capGet m.caps "modifiers"
  let isPart := strContains modifiers "partial"
  let kind := capGet m.caps "kind"
  let name := capGet m.caps "name"
  let bases := csBasesOf (capGet m.caps "bases")
  let attributes := extract_attributes (capGet m.caps "attributes")
  ⟨name, kind, bases, csharp_type_members name kind m.mStart m.mEnd content depth,
    attributes, isPart⟩

/-- Structure extraction of `parse_file` on already-decoded text. -/
def csharp_extract (path : String) (content : List Char) (depth : String) : CsFileInfo :=
  let ns := match rxSearch csNamespaceRx content with
    | some m => capGet m.caps "1"
    | none => ""
  let usings := (findIter csUsingRx content).map (fun m => capGet m.caps "1")
  let types := (findIter csTypeRx content).map (fun m => csharp_parse_type m content depth)
  ⟨path, ns, types, usings⟩

/-! Decoding model for `parse_file` (map_csharp.py lines 217-226).  The
file content is a byte sequence; UTF-8 decoding (with BOM stripping, as
`utf-8-sig`) is embedded as the standard validation algorithm, and the
latin-1 fallback maps every byte `b` to the code point `b`.  The
fallback `read_text` call re-reads the file; its outcome is an explicit
input (`none` models any exception raised by that second read, which
the source catches with a blanket `except Exception`). -/

/-- A byte. -/
abbrev PyByte := Fin 256

/-- Latin-1 decoding: total, every byte maps to its code point. -/
def latin1Decode (bs : List PyByte) : List Char := bs.map (fun b => Char.ofNat b.val)

/-- Strict UTF-8 decoding (fuel = byte count). -/
def utf8Go : Nat → List PyByte → Option (List Char)
  | _, [] => some []
  | 0, _ :: _ => none
  | f + 1, b :: rest =>
    let v := b.val
    if v < 0x80 then (utf8Go f rest).map (Char.ofNat v :: ·)
    else if v < 0xC2 then none
    else if v < 0xE0 then
      match rest with
      | b2 :: rest2 =>
        if 0x80 ≤ b2.val ∧ b2.val < 0xC0 then
          (utf8Go f rest2).map (Char.ofNat ((v - 0xC0) * 0x40 + (b2.val - 0x80)) :: ·)
        else none
      | [] => none
    else if v < 0xF0 then
      match rest with
      | b2 :: b3 :: rest3 =>
        if (if v = 0xE0 then 0xA0 ≤ b2.val ∧ b2.val < 0xC0
            else if v = 0xED then 0x80 ≤ b2.val ∧ b2.val < 0xA0
            else 0x80 ≤ b2.val ∧ b2.val < 0xC0) ∧
           (0x80 ≤ b3.val ∧ b3.val < 0xC0) then
          (utf8Go f rest3).map
            (Char.ofNat ((v - 0xE0) * 0x1000 + (b2.val - 0x80) * 0x40 + (b3.val - 0x80)) :: ·)
        else none
      | _ => none
    else if v < 0xF5 then
      match rest with
      | b2 :: b3 :: b4 :: rest4 =>
        if (if v = 0xF0 then 0x90 ≤ b2.val ∧ b2.val < 0xC0
            else if v = 0xF4 then 0x80 ≤ b2.val ∧ b2.val < 0x90
            else 0x80 ≤ b2.val ∧ b2.val < 0xC0) ∧
           (0x80 ≤ b3.val ∧ b3.val < 0xC0) ∧ (0x80 ≤ b4.val ∧ b4.val < 0xC0) then
          (utf8Go f rest4).map
            (Char.ofNat ((v - 0xF0) * 0x40000 + (b2.val - 0x80) * 0x1000 +
              (b3.val - 0x80) * 0x40 + (b4.val - 0x80)) :: ·)
        else none
      | _ => none
    else none

/-- UTF-8 decoding of a whole byte sequence. -/
def utf8Decode (bs : List PyByte) : Option (List Char) := utf8Go bs.length bs

/-- Python's `utf-8-sig` codec: strip a leading BOM, then strict UTF-8. -/
def utf8SigDecode (bs : List PyByte) : Option (List Char) :=
  utf8Decode (if [(0xEF : PyByte), 0xBB, 0xBF].isPrefixOf bs then bs.drop 3 else bs)

/-- Decoding stage of `parse_file`: UTF-8 first; on a decode error the
file is re-read as latin-1 (`fallback` is that second read's outcome;
`none` means it raised). -/
def csharp_read (bs : List PyByte) (fallback : Option (List PyByte)) : Option (List Char) :=
  match utf8SigDecode bs with
  | some content => some content
  | none =>
    match fallback with
    | some bs2 => some (latin1Decode bs2)
    | none => none

/-- `parse_file` from map_csharp.py over explicit byte content. -/
def csharp_parse_file (path : String) (bs : List PyByte) (fallback : Option (List PyByte))
    (depth : String) : Option CsFileInfo :=
  (csharp_read bs fallback).map (fun content => csharp_extract path content depth)

/-- `should_exclude` (identical in map_csharp.py and map_python.py):
a path is excluded when any segment is in the exclusion set or starts
with a dot.  `parts` are the segments of the path relative to the root
(the last one being the file name, exactly as `Path.parts` yields). -/
def should_exclude (parts : List String) (excludes : List String) : Bool :=
  parts.any (fun part => excludes.contains part || strStarts part ".")

/-- `DEFAULT_EXCLUDES` from map_csharp.py (a Python set, used only
through membership, so declaration order is irrelevant). -/
def csDefaultExcludes : List String :=
  ["bin", "obj", ".git", "node_modules", "packages", "TestResults", ".vs", "Debug", "Release"]

/-- Join a root path with relative segments. -/
def pathJoin (root : String) (parts : List String) : String :=
  root ++ "/" ++ String.intercalate "/" parts

/-- Last segment of a path string (`Path(...).name`). -/
def pathName (p : String) : String := (pySplitChar p '/').getLastD p

/-- One candidate source file for the C# walk: its path relative to the
root and its raw content (the walk input models the `rglob('*.cs')`
enumeration). -/
structure CsSrcFile where
  relParts : List String
  bytes : List PyByte
  fallback : Option (List PyByte)
deriving DecidableEq

/-- Aggregation state of the C# walk (map_csharp.py lines 344-362).
`all_usings` models the Python set through membership only. -/
structure CsWalkState where
  files : List CsFileInfo
  all_usings : List String
  file_count : Nat
  type_count : Nat
  member_count : Nat
deriving DecidableEq

/-- One iteration of the C# collection loop. -/
def csWalkStep (root depth : String) (excludes : List String) (st : CsWalkState)
    (f : CsSrcFile) : CsWalkState :=
  if should_exclude f.relParts excludes then st
  else match csharp_parse_file (pathJoin root f.relParts) f.bytes f.fallback depth with
    | none => st
    | some fi =>
      { files := st.files ++ [fi]
        all_usings := st.all_usings ++ fi.usings
        file_count := st.file_count + 1
        type_count := st.type_count + fi.types.length
        member_count := st.member_count + (fi.types.map (fun t => t.members.length)).sum }

/-- The C# tree walk. -/
def csharp_walk (root depth : String) (excludes : List String) (files : List CsSrcFile) :
    CsWalkState :=
  files.foldl (csWalkStep root depth excludes) ⟨[], [], 0, 0, 0⟩

/-- `FRAMEWORK_INDICATORS` from map_csharp.py, in declaration order. -/
def csFrameworkIndicators : List (String × String) :=
  [("Microsoft.AspNetCore", "ASP.NET Core"), ("Microsoft.EntityFrameworkCore", "EF Core"),
   ("System.Text.Json", "System.Text.Json"), ("Newtonsoft.Json", "Newtonsoft.Json"),
   ("MediatR", "MediatR"), ("FluentValidation", "FluentValidation"), ("Serilog", "Serilog"),
   ("AutoMapper", "AutoMapper"), ("Dapper", "Dapper"), ("xunit", "xUnit"),
   ("NUnit", "NUnit"), ("Moq", "Moq")]

/-- Detection loop shared (syntactically identical apart from the hit
test) by the C# and TypeScript `detect_frameworks`: walk the mapping in
declaration order, append the display name at the first hit unless it is
already present. -/
def fwDetectLoop (hit : String → Bool) : List (String × String) → List String → List String
  | [], acc => acc
  | (p, n) :: rest, acc =>
    fwDetectLoop hit rest (if hit p then (if acc.contains n then acc else acc ++ [n]) else acc)

/-- `detect_frameworks` from map_csharp.py: a using hits when it merely
starts with the mapping prefix (no separator is required). -/
def csharp_detect_frameworks (all_usings : List String) : List String :=
  fwDetectLoop (fun pre => all_usings.any (fun u => strStarts u pre)) csFrameworkIndicators []

/-- `format_type` from map_csharp.py (the arrow mojibake is literal in
the source). -/
def csharp_format_type (t : CsTypeInfo) : String :=
  let basePart :=
    if !t.bases.isEmpty then
      " : " ++ String.intercalate ", " (t.bases.take 3) ++
        (if t.bases.length > 3 then " (+" ++ toString (t.bases.length - 3) ++ ")" else "")
    else ""
  let part0 := "`" ++ t.name ++ basePart ++ "`"
  let parts1 := if t.kind != "class" then ["[" ++ t.kind ++ "]"] else []
  let important_attrs := ["ApiController", "Authorize", "Route", "Injectable", "Component"]
  let shown_attrs := t.attributes.filter (fun a => important_attrs.contains a)
  let parts2 :=
    if !shown_attrs.isEmpty then ["[" ++ String.intercalate ", " shown_attrs ++ "]"] else []
  let methods := (t.members.filter (fun m => m.kind == "method")).map (fun m => m.name)
  let parts3 :=
    if !methods.isEmpty then
      ["â†’ " ++ String.intercalate ", " (methods.take 5) ++
        (if methods.length > 5 then " (+" ++ toString (methods.length - 5) ++ " more)" else "")]
    else []
  String.intercalate " " ([part0] ++ parts1 ++ parts2 ++ parts3)

/-- List lookup for the grouping dictionaries. -/
def dictGet (d : List (String × List α)) (k : String) : List α :=
  match d.find? (fun p => p.1 = k) with
  | some p => p.2
  | none => []

/-- `format_output` from map_csharp.py: group by namespace, sort group
keys and files within a group by path (Python `sorted`, stable), list
each type of each file that has any. -/
def csharp_format_output (files : List CsFileInfo) (root : String) (frameworks : List String) :
    String :=
  let title := "### C#: " ++ pathName root ++ "/"
  let fwLines :=
    if !frameworks.isEmpty then
      ["**Frameworks detected:** " ++ String.intercalate ", " frameworks, ""]
    else []
  let ns_files := files.foldl (fun d f =>
    dictAppend d (if f.ns != "" then f.ns else "(no namespace)") f) []
  let nsLines := (stableSort strLt (ns_files.map Prod.fst)).foldl (fun lines ns =>
    let ns_file_list := dictGet ns_files ns
    let fileLines := (stableSort (fun a b => strLt a.path b.path) ns_file_list).foldl
      (fun ls f =>
        if f.types.isEmpty then ls
        else ls ++ f.types.map (fun t =>
          "  - `" ++ pathName f.path ++ "`: " ++ csharp_format_type t)) []
    lines ++ ["- `" ++ ns ++ "`"] ++ fileLines) []
  String.intercalate "\n" ([title] ++ fwLines ++ nsLines)

/-- The trailing statistics comment of map_csharp.py's `main`. -/
def csharp_stats (file_count type_count member_count : Nat) : String :=
  "\n<!-- C#: " ++ toString file_count ++ " files, " ++ toString type_count ++ " types, " ++
    toString member_count ++ " members -->\n"

/-- `main` from map_csharp.py, from the root-existence check to the
final output text (CLI parsing and the stdout/file choice are outside
the modelled core; exit code 1 is the hard-failure signal). -/
def csharp_main (rootExists : Bool) (root : String) (files : List CsSrcFile)
    (depth excludeArg : String) : Except Nat String :=
  if !rootExists then .error 1
  else
    let excludes := csDefaultExcludes ++ (if excludeArg != "" then pySplitChar excludeArg ',' else [])
    let st := csharp_walk root depth excludes files
    let frameworks := csharp_detect_frameworks st.all_usings
    let output := csharp_format_output st.files root frameworks
    .ok (output ++ csharp_stats st.file_count st.type_count st.member_count)

/-! ## The TypeScript mapper (map_typescript.py) -/

/-- `TypeInfo` from map_typescript.py. -/
structure TsTypeInfo where
  name : String
  kind : String
  bases : List String
  members : List MemberInfo
  decorators : List String
  is_exported : Bool
deriving DecidableEq

/-- `FileInfo` from map_typescript.py. -/
structure TsFileInfo where
  path : String
  types : List TsTypeInfo
  imports : List String
deriving DecidableEq

/-- `DEFAULT_EXCLUDES` from map_typescript.py. -/
def tsDefaultExcludes : List String :=
  ["node_modules", "dist", "build", ".git", "coverage",
   "__tests__", "__mocks__", ".next", ".nuxt", ".output"]

/-- `FRAMEWORK_INDICATORS` from map_typescript.py, declaration order. -/
def tsFrameworkIndicators : List (String × String) :=
  [("react", "React"), ("@angular", "Angular"), ("vue", "Vue"), ("next", "Next.js"),
   ("express", "Express"), ("fastify", "Fastify"), ("nestjs", "NestJS"), ("@nestjs", "NestJS"),
   ("typeorm", "TypeORM"), ("prisma", "Prisma"), ("zod", "Zod"), ("trpc", "tRPC"),
   ("@trpc", "tRPC")]

/-- Character class `[\w<>,.]` of the extends/implements groups. -/
def tsBaseChar (c : Char) : Bool :=
  isWordChar c || c == '<' || c == '>' || c == ',' || c == '.'

/-- `IMPORT_PATTERN` from map_typescript.py. -/
def tsImportRx : Rx :=
  .seq [litS "import", sPlus,
    .opt (.seq [
      .opt (.seq [litS "type", sPlus]),
      .alt [.seq [litS "\x7b", plusCls (fun c => c != '\x7d'), litS "\x7d"],
            .seq [litS "*", sPlus, litS "as", sPlus, wPlus],
            wPlus],
      sPlus, litS "from", sPlus]),
    .cls (fun c => c == '\x27' || c == '\x22'),
    .grp "1" (plusCls (fun c => c != '\x27' && c != '\x22')),
    .cls (fun c => c == '\x27' || c == '\x22')]

/-- Generic-parameter suffix `(?:<[^>]+>)?` body. -/
def tsGenericRx : Rx := .seq [litS "<", plusCls (fun c => c != '>'), litS ">"]

/-- `CLASS_PATTERN` from map_typescript.py. -/
def tsClassRx : Rx :=
  .seq [
    .grp "decorators" (.star (.seq [litS "@", wPlus,
      .opt (.seq [litS "(", .star (.cls (fun c => c != ')')), litS ")"]), sStar])),
    .opt (.grp "export" (.seq [litS "export", sPlus])),
    .opt (.grp "abstract" (.seq [litS "abstract", sPlus])),
    litS "class", sPlus, .grp "name" wPlus,
    .opt tsGenericRx,
    .opt (.seq [sPlus, litS "extends", sPlus, .grp "extends" (plusCls tsBaseChar)]),
    .opt (.seq [sPlus, litS "implements", sPlus, .grp "implements" (plusCls tsBaseChar)]),
    sStar, litS "\x7b"]

/-- `INTERFACE_PATTERN` from map_typescript.py. -/
def tsInterfaceRx : Rx :=
  .seq [.opt (.grp "export" (.seq [litS "export", sPlus])),
    litS "interface", sPlus, .grp "name" wPlus,
    .opt tsGenericRx,
    .opt (.seq [sPlus, litS "extends", sPlus, .grp "extends" (plusCls tsBaseChar)]),
    sStar, litS "\x7b"]

/-- `TYPE_ALIAS_PATTERN` from map_typescript.py. -/
def tsAliasRx : Rx :=
  .seq [.opt (.grp "export" (.seq [litS "export", sPlus])),
    litS "type", sPlus, .grp "name" wPlus, .opt tsGenericRx, sStar, litS "="]

/-- `ENUM_PATTERN` from map_typescript.py. -/
def tsEnumRx : Rx :=
  .seq [.opt (.grp "export" (.seq [litS "export", sPlus])),
    .opt (.seq [litS "const", sPlus]),
    litS "enum", sPlus, .grp "name" wPlus, sStar, litS "\x7b"]

/-- `FUNCTION_PATTERN` from map_typescript.py. -/
def tsFunctionRx : Rx :=
  .seq [.opt (.grp "export" (.seq [litS "export", sPlus])),
    .opt (.grp "default" (.seq [litS "default", sPlus])),
    .opt (.grp "async" (.seq [litS "async", sPlus])),
    litS "function", sPlus, .grp "name" wPlus, .opt tsGenericRx, sStar, litS "("]

/-- Character class `[\w<>|()\s,=>\[\]]` of the arrow-function type
annotation. -/
def tsArrowTypeChar (c : Char) : Bool :=
  isWordChar c || c == '<' || c == '>' || c == '|' || c == '(' || c == ')' ||
    pySpace c || c == ',' || c == '=' || c == '[' || c == ']'

/-- Character class `[\w<>|\s]` of the arrow return annotation. -/
def tsRetAnnChar (c : Char) : Bool :=
  isWordChar c || c == '<' || c == '>' || c == '|' || pySpace c

/-- `ARROW_FUNCTION_PATTERN` from map_typescript.py. -/
def tsArrowRx : Rx :=
  .seq [.opt (.grp "export" (.seq [litS "export", sPlus])),
    .alt [litS "const", litS "let"], sPlus,
    .grp "name" wPlus,
    .opt (.seq [litS ":", sStar, plusCls tsArrowTypeChar]),
    sStar, litS "=", sStar,
    .opt (.grp "async" (.seq [litS "async", sPlus])),
    .alt [.seq [litS "(", .star (.cls (fun c => c != ')')), litS ")"], plusCls isWordChar],
    sStar, .opt (.seq [litS ":", sStar, plusCls tsRetAnnChar]),
    sStar, litS "=>"]

/-- `REACT_FC_PATTERN` from map_typescript.py. -/
def tsReactFcRx : Rx :=
  .seq [.opt (.grp "export" (.seq [litS "export", sPlus])),
    .alt [litS "const", litS "let"], sPlus,
    .grp "name" wPlus, sStar, litS ":", sStar,
    .opt (litS "React."),
    .alt [litS "FC", litS "FunctionComponent", litS "VFC"],
    .opt tsGenericRx]

/-- Character class `[\w<>|\s\[\]]` of the method return annotation. -/
def tsMethodRetChar (c : Char) : Bool :=
  isWordChar c || c == '<' || c == '>' || c == '|' || pySpace c || c == '[' || c == ']'

/-- `METHOD_PATTERN` from map_typescript.py: the repeated `modifier`
group alternates keywords with single whitespace characters, so its
capture is the last repetition (normally a whitespace character). -/
def tsMethodRx : Rx :=
  .seq [.star (.grp "modifier" (.alt [litS "public", litS "private", litS "protected",
      litS "static", litS "async", sCls])),
    .grp "name" wPlus,
    .opt tsGenericRx,
    sStar, litS "(", .star (.cls (fun c => c != ')')), litS ")",
    .opt (.seq [sStar, litS ":", sStar, plusCls tsMethodRetChar]),
    sStar, litS "\x7b"]

/-- Line-comment pattern `//.*$` (MULTILINE). -/
def tsLineCommentRx : Rx :=
  .seq [litS "//", .star (.cls (fun c => c != '\n')), .assrt eolAssert]

/-- Block-comment pattern `/\*.*?\*/` (DOTALL, lazy). -/
def tsBlockCommentRx : Rx :=
  .seq [litS "/*", .starL (.cls (fun _ => true)), litS "*/"]

/-- Comment stripping of `parse_file` (line comments, then block
comments, as in the source). -/
def tsStripComments (content : List Char) : List Char :=
  rxSub tsBlockCommentRx (rxSub tsLineCommentRx content)

/-- `extract_decorators`: `re.findall(r'@(\w+)', s)`. -/
def extract_decorators (s : String) : List String :=
  (findIter (.seq [litS "@", .grp "1" wPlus]) s.toList).map (fun m => capGet m.caps "1")

/-- `is_react_component` from map_typescript.py: PascalCase name and a
JSX-looking return inside the following block (two dynamic patterns).
A name produced by `\w+` is never empty; the empty case is unreachable
and returns `false`. -/
def is_react_component (name : String) (content : List Char) : Bool :=
  match name.toList.head? with
  | none => false
  | some c0 =>
    if !c0.isUpper then false
    else if (rxSearch (.seq [.lit name.toList, .star (.cls (fun c => c != '\x7b')), litS "\x7b",
        .star (.cls (fun c => c != '\x7d')), litS "return", sStar, litS "(",
        .star (.cls (fun c => c != ')')), litS "<"]) content).isSome then true
    else if (rxSearch (.seq [.lit name.toList, .star (.cls (fun c => c != '\x7b')), litS "\x7b",
        .star (.cls (fun c => c != '\x7d')), litS "return", sStar, litS "<"]) content).isSome then
      true
    else false

/-- First component of `s.split(sep)[0]`. -/
def splitHead (s : String) (sep : Char) : String := (pySplitChar s sep).headD s

/-- Body of the method loop of `parse_class` (map_typescript.py lines
252-270): only the `private` marker is tested against the captured
modifier, then the constructor/lifecycle skip list. -/
def tsMethodMember (depth : String) (mm : RxMatch) : Option MemberInfo :=
  let method_name := capGet mm.caps "name"
  let modifiers := capGet mm.caps "modifier"
  if depth != "full" && strContains modifiers "private" then none
  else if ["constructor", "ngOnInit", "ngOnDestroy", "componentDidMount",
      "componentWillUnmount", "render", "get", "set"].contains method_name then none
  else some ⟨method_name ++ "()", "method", strContains modifiers "async"⟩

/-- Member discovery of `parse_class` (map_typescript.py): empty at
depth `classes`, otherwise methods from the class body located by the
balancer. -/
def ts_class_members (mStart mEnd : Nat) (content : List Char) (depth : String) :
    List MemberInfo :=
  if depth != "classes" then
    let class_body := (content.drop mEnd).take (find_block_end content mStart - mEnd)
    (findIter tsMethodRx class_body).filterMap (tsMethodMember depth)
  else []

/-- `parse_class` from map_typescript.py. -/
def ts_parse_class (m : RxMatch) (content : List Char) (depth : String) : TsTypeInfo :=
  let decorators := extract_decorators (capGet m.caps "decorators")
  let is_exported := capGet m.caps "export" != ""
  let name := capGet m.caps "name"
  let bases :=
    (if capGet m.caps "extends" != "" then [pyStrip (splitHead (capGet m.caps "extends") '<')]
     else []) ++
    (if capGet m.caps "implements" != "" then
      (pySplitChar (capGet m.caps "implements") ',').foldl (fun acc impl =>
        let impl' := pyStrip (splitHead impl '<')
        if impl' != "" then acc ++ [impl'] else acc) []
     else [])
  let kind :=
    if decorators.contains "Component" then "component"
    else if decorators.contains "Injectable" then "service"
    else "class"
  ⟨name, kind, bases, ts_class_members m.mStart m.mEnd content depth, decorators, is_exported⟩

/-- One iteration of the arrow-function loop of `parse_file`
(map_typescript.py lines 361-375): only exported arrows, no duplicate
names. -/
def tsArrowStep (cnc : List Char) (ts : List TsTypeInfo) (m : RxMatch) : List TsTypeInfo :=
  if capGet m.caps "export" == "" then ts
  else if ts.any (fun t => t.name == capGet m.caps "name") then ts
  else ts ++ [TsTypeInfo.mk (capGet m.caps "name")
    (if is_react_component (capGet m.caps "name") cnc then "component" else "function")
    [] [] [] true]

/-- Class loop of `parse_file`. -/
def tsClassTypes (cnc : List Char) (depth : String) : List TsTypeInfo :=
  (findIter tsClassRx cnc).map (fun m => ts_parse_class m cnc depth)

/-- Interface loop of `parse_file`. -/
def tsInterfaceTypes (cnc : List Char) : List TsTypeInfo :=
  (findIter tsInterfaceRx cnc).map (fun m =>
    TsTypeInfo.mk (capGet m.caps "name") "interface"
      (if capGet m.caps "extends" != "" then [capGet m.caps "extends"] else [])
      [] [] (capGet m.caps "export" != ""))

/-- Type-alias loop of `parse_file`. -/
def tsAliasTypes (cnc : List Char) : List TsTypeInfo :=
  (findIter tsAliasRx cnc).map (fun m =>
    TsTypeInfo.mk (capGet m.caps "name") "type" [] [] [] (capGet m.caps "export" != ""))

/-- Enum loop of `parse_file`: the member list is the literal empty
list — an enum body is never scanned for members. -/
def tsEnumTypes (cnc : List Char) : List TsTypeInfo :=
  (findIter tsEnumRx cnc).map (fun m =>
    TsTypeInfo.mk (capGet m.caps "name") "enum" [] [] [] (capGet m.caps "export" != ""))

/-- Function loop of `parse_file`. -/
def tsFuncTypes (cnc : List Char) : List TsTypeInfo :=
  (findIter tsFunctionRx cnc).map (fun m =>
    TsTypeInfo.mk (capGet m.caps "name")
      (if is_react_component (capGet m.caps "name") cnc then "component" else "function")
      [] [] [] (capGet m.caps "export" != ""))

/-- React FC loop of `parse_file`. -/
def tsFcTypes (cnc : List Char) : List TsTypeInfo :=
  (findIter tsReactFcRx cnc).map (fun m =>
    TsTypeInfo.mk (capGet m.caps "name") "component" ["FC"] [] []
      (capGet m.caps "export" != ""))

/-- The type-collection pipeline of `parse_file` over comment-stripped
text: classes, interfaces, type aliases, enums, functions, React FC
components, then exported arrow functions. -/
def ts_file_types (cnc : List Char) (depth : String) : List TsTypeInfo :=
  (findIter tsArrowRx cnc).foldl (tsArrowStep cnc)
    (tsClassTypes cnc depth ++ tsInterfaceTypes cnc ++ tsAliasTypes cnc ++ tsEnumTypes cnc ++
      tsFuncTypes cnc ++ tsFcTypes cnc)

/-- `parse_file` from map_typescript.py over the decode outcome of the
file (`none` models a `UnicodeDecodeError`, reported as a warning and
skipped). -/
def ts_parse_file (path : String) (content0 : Option (List Char)) (depth : String) :
    Option TsFileInfo :=
  match content0 with
  | none => none
  | some content =>
    let cnc := tsStripComments content
    let imports := (findIter tsImportRx content).map (fun m => capGet m.caps "1")
    some ⟨path, ts_file_types cnc depth, imports⟩

/-- `detect_frameworks` from map_typescript.py: equality, or the prefix
followed by `/` or `-`. -/
def ts_detect_frameworks (all_imports : List String) : List String :=
  fwDetectLoop (fun imp => all_imports.any (fun i =>
    i == imp || strStarts i (imp ++ "/") || strStarts i (imp ++ "-"))) tsFrameworkIndicators []

/-- `format_type` from map_typescript.py. -/
def ts_format_type (t : TsTypeInfo) : String :=
  let part0 := "`" ++ t.name ++ "`"
  let parts1 := if t.kind != "class" && t.kind != "function" then ["(" ++ t.kind ++ ")"] else []
  let parts2 :=
    if !t.bases.isEmpty then
      [": " ++ String.intercalate ", " (t.bases.take 2) ++
        (if t.bases.length > 2 then " (+" ++ toString (t.bases.length - 2) ++ ")" else "")]
    else []
  let parts3 :=
    if !t.decorators.isEmpty then
      ["[@" ++ String.intercalate ", " (t.decorators.take 2) ++ "]"]
    else []
  let parts4 :=
    if !t.members.isEmpty then
      let methods := (t.members.filter (fun m => m.kind == "method")).map (fun m => m.name)
      if !methods.isEmpty then
        ["â†’ " ++ String.intercalate ", " (methods.take 4) ++
          (if methods.length > 4 then " (+" ++ toString (methods.length - 4) ++ ")" else "")]
      else []
    else []
  String.intercalate " " ([part0] ++ parts1 ++ parts2 ++ parts3 ++ parts4)

/-- Relative path of `path` below `root` (`Path.relative_to`; the walk
only produces paths below the root). -/
def relTo (root path : String) : String :=
  if strStarts path (root ++ "/") then String.mk (path.toList.drop (root.length + 1)) else path

/-- Directory part of the path of a file relative to `root`
(`str(rel_path.parent)`, with `.` rendered as the empty group key). -/
def relDirName (root path : String) : String :=
  let segs := pySplitChar (relTo root path) '/'
  if segs.length ≤ 1 then "" else String.intercalate "/" (segs.dropLast)

/-- `format_output` from map_typescript.py. -/
def ts_format_output (files : List TsFileInfo) (root : String) (frameworks : List String) :
    String :=
  let title := "### TypeScript: " ++ pathName root ++ "/"
  let fwLines :=
    if !frameworks.isEmpty then
      ["**Frameworks detected:** " ++ String.intercalate ", " frameworks, ""]
    else []
  let dir_files := files.foldl (fun d f => dictAppend d (relDirName root f.path) f) []
  let dirLines := (stableSort strLt (dir_files.map Prod.fst)).foldl (fun lines dir_name =>
    let dir_file_list := dictGet dir_files dir_name
    let indent := if dir_name != "" then "  " else ""
    let header := if dir_name != "" then ["- `" ++ dir_name ++ "/`"] else []
    let fileLines := (stableSort (fun a b => strLt a.path b.path) dir_file_list).foldl
      (fun ls f =>
        let filename := pathName f.path
        if (filename == "index.ts" || filename == "index.tsx" || filename == "index.js") &&
            f.types.isEmpty then ls
        else
          let exported_types := f.types.filter (fun t => t.is_exported)
          if exported_types.isEmpty then ls
          else ls ++ [indent ++ "- `" ++ filename ++ "`:"] ++
            exported_types.map (fun t => indent ++ "  - " ++ ts_format_type t)) []
    lines ++ header ++ fileLines) []
  String.intercalate "\n" ([title] ++ fwLines ++ dirLines)

/-- One candidate source file for the TypeScript walk (stands for one
entry of the `rglob` loops over `*.ts`, `*.tsx`, `*.js`, `*.jsx`).
`content` is the decode outcome of the file. -/
structure TsSrcFile where
  relParts : List String
  content : Option (List Char)
deriving DecidableEq

/-- Aggregation state of the TypeScript walk (map_typescript.py lines
487-507): no member count is tracked at all. -/
structure TsWalkState where
  files : List TsFileInfo
  all_imports : List String
  file_count : Nat
  type_count : Nat
deriving DecidableEq

/-- One iteration of the TypeScript collection loop (declaration files
`*.d.ts` are skipped before the exclusion test). -/
def tsWalkStep (root depth : String) (excludes : List String) (st : TsWalkState)
    (f : TsSrcFile) : TsWalkState :=
  if strEnds (f.relParts.getLastD "") ".d.ts" then st
  else if should_exclude f.relParts excludes then st
  else match ts_parse_file (pathJoin root f.relParts) f.content depth with
    | none => st
    | some fi =>
      { files := st.files ++ [fi]
        all_imports := st.all_imports ++ fi.imports
        file_count := st.file_count + 1
        type_count := st.type_count + fi.types.length }

/-- The TypeScript tree walk. -/
def ts_walk (root depth : String) (excludes : List String) (files : List TsSrcFile) :
    TsWalkState :=
  files.foldl (tsWalkStep root depth excludes) ⟨[], [], 0, 0⟩

/-- The trailing statistics comment of map_typescript.py's `main`: only
the file count and the type ("exports") count appear. -/
def ts_stats (file_count type_count : Nat) : String :=
  "\n<!-- TypeScript: " ++ toString file_count ++ " files, " ++ toString type_count ++
    " exports -->\n"

/-- `main` from map_typescript.py, root-existence check to output. -/
def ts_main (rootExists : Bool) (root : String) (files : List TsSrcFile)
    (depth excludeArg : String) : Except Nat String :=
  if !rootExists then .error 1
  else
    let excludes := tsDefaultExcludes ++ (if excludeArg != "" then pySplitChar excludeArg ',' else [])
    let st := ts_walk root depth excludes files
    let frameworks := ts_detect_frameworks st.all_imports
    let output := ts_format_output st.files root frameworks
    .ok (output ++ ts_stats st.file_count st.type_count)

/-! ## The Python mapper (map_python.py)

This front end parses with the standard `ast` module, an external
collaborator: a file is therefore given as the outcome of the external
decode + parse steps — undecodable, syntactically invalid, or a parsed
tree.  A parsed tree is supplied as the node list that `ast.walk`
yields (the walk order is fixed by the external library; only the
relative order of nodes is observable in the output). -/

/-- The `ast.expr` shapes inspected by `extract_decorator_name`. -/
inductive PyExpr where
  | nameE (id : String)
  | attrE (attrName : String) (value : PyExpr)
  | callE (func : PyExpr)
  | otherE
deriving DecidableEq

/-- Attribute-chain collection of `extract_decorator_name`: gather
`attr` fields while the node is an `Attribute`, then the final `Name`
id if present. -/
def pyDecParts : PyExpr → List String
  | .attrE a v => a :: pyDecParts v
  | .nameE id => [id]
  | _ => []

/-- `extract_decorator_name` from map_python.py. -/
def extract_decorator_name : PyExpr → String
  | .nameE id => id
  | .attrE a v => String.intercalate "." (a :: pyDecParts v).reverse
  | .callE f => extract_decorator_name f
  | .otherE => "?"

/-- A class-body statement as inspected by `parse_class`: a (possibly
async) function definition, or anything else. -/
inductive PyStmt where
  | funcDef (name : String) (decorator_list : List PyExpr) (isAsync : Bool)
  | otherS
deriving DecidableEq

/-- `ClassInfo` from map_python.py. -/
structure PyClassInfo where
  name : String
  bases : List String
  methods : List String
  decorators : List String
  properties : List String
  is_dataclass : Bool
deriving DecidableEq

/-- One iteration of the class-body loop of `parse_class`
(map_python.py lines 99-113): the accumulator pairs the `methods` and
`properties` lists. -/
def pyClassStep (depth : String) (mp : List String × List String) (item : PyStmt) :
    List String × List String :=
  match item with
  | .funcDef iname idecs iasync =>
    if depth != "full" && strStarts iname "_" && !(strStarts iname "__") then mp
    else if strStarts iname "__" && iname != "__init__" then mp
    else
      let item_decorators := idecs.map extract_decorator_name
      if item_decorators.contains "property" then (mp.1, mp.2 ++ [iname])
      else (mp.1 ++ [(if iasync then "async " else "") ++ iname ++ "()"], mp.2)
  | .otherS => mp

/-- `parse_class` from map_python.py, over the fields of the
`ast.ClassDef` node it inspects. -/
def python_parse_class (name : String) (basesE : List PyExpr) (decorator_list : List PyExpr)
    (body : List PyStmt) (depth : String) : PyClassInfo :=
  let bases := basesE.foldl (fun acc b =>
    match b with
    | .nameE id => acc ++ [id]
    | .attrE a _ => acc ++ [a]
    | _ => acc) []
  let decorators := decorator_list.map extract_decorator_name
  let is_dataclass := decorators.contains "dataclass"
  let mp : List String × List String :=
    if depth != "classes" then body.foldl (pyClassStep depth) ([], []) else ([], [])
  ⟨name, bases, mp.1, decorators, mp.2, is_dataclass⟩

/-- One node of the `ast.walk` stream, restricted to the shapes
`parse_module` dispatches on. -/
inductive PyNode where
  | classDef (name : String) (bases : List PyExpr) (decorator_list : List PyExpr)
      (body : List PyStmt)
  | funcNode (name : String) (isAsync : Bool) (col_offset : Nat)
  | importNode (names : List String)
  | importFrom (moduleName : Option String)
  | otherNode
deriving DecidableEq

/-- `ModuleInfo` from map_python.py. -/
structure PyModuleInfo where
  path : String
  classes : List PyClassInfo
  functions : List String
  imports : List String
deriving DecidableEq

/-- First dotted component: `name.split('.')[0]`. -/
def firstComponent (s : String) : String := (pySplitChar s '.').headD s

/-- Order-preserving deduplication; stands for Python's
`list(set(imports))`, whose order is unspecified and never observed
(the list is only used through membership downstream). -/
def dedupKeepFirst (l : List String) : List String :=
  l.foldl (fun acc x => if acc.contains x then acc else acc ++ [x]) []

/-- One iteration of the `ast.walk` dispatch loop of `parse_module`
(map_python.py lines 143-158); the accumulator is (classes, functions,
imports). -/
def pyModuleStep (depth : String) (acc : List PyClassInfo × List String × List String)
    (node : PyNode) : List PyClassInfo × List String × List String :=
  match node with
  | .classDef n b d bd =>
    (acc.1 ++ [python_parse_class n b d bd depth], acc.2.1, acc.2.2)
  | .funcNode n ia col =>
    if col == 0 then
      if depth != "classes" then
        if !(strStarts n "_") || depth == "full" then
          (acc.1, acc.2.1 ++ [(if ia then "async " else "") ++ n ++ "()"], acc.2.2)
        else acc
      else acc
    else acc
  | .importNode names => (acc.1, acc.2.1, acc.2.2 ++ names.map firstComponent)
  | .importFrom m =>
    match m with
    | some mn => (acc.1, acc.2.1, acc.2.2 ++ [firstComponent mn])
    | none => acc
  | .otherNode => acc

/-- The `ast.walk` dispatch loop of `parse_module`. -/
def python_extract (path : String) (nodes : List PyNode) (depth : String) : PyModuleInfo :=
  let res := nodes.foldl (pyModuleStep depth) ([], [], [])
  ⟨path, res.1, res.2.1, dedupKeepFirst res.2.2⟩

/-- Externally-determined outcome of reading and parsing one file. -/
inductive PySrc where
  | undecodable
  | syntaxError
  | parsed (nodes : List PyNode)
deriving DecidableEq

/-- `parse_module` from map_python.py: a decode failure or a syntax
error yields `none` (skip) plus a warning on the diagnostic stream;
otherwise the extracted `ModuleInfo`. -/
def python_parse_module (path : String) (src : PySrc) (depth : String) :
    Option PyModuleInfo × List String :=
  match src with
  | .undecodable => (none, ["Warning: Skipping non-UTF8 file: " ++ path])
  | .syntaxError => (none, ["Warning: Syntax error in " ++ path])
  | .parsed nodes => (some (python_extract path nodes depth), [])

/-- `DEFAULT_EXCLUDES` from map_python.py. -/
def pyDefaultExcludes : List String :=
  ["__pycache__", ".git", "venv", ".venv", "env", ".env",
   "node_modules", "build", "dist", ".tox", ".pytest_cache",
   ".mypy_cache", "eggs", "*.egg-info", ".eggs"]

/-- `FRAMEWORK_INDICATORS` from map_python.py, declaration order. -/
def pyFrameworkIndicators : List (String × String) :=
  [("fastapi", "FastAPI"), ("flask", "Flask"), ("django", "Django"),
   ("sqlalchemy", "SQLAlchemy"), ("pydantic", "Pydantic"), ("pytest", "pytest"),
   ("celery", "Celery"), ("httpx", "httpx"), ("aiohttp", "aiohttp")]

/-- `detect_frameworks` from map_python.py: exact membership of the
mapping key in the import set, no prefix logic, no dedup guard. -/
def python_detect_frameworks (all_imports : List String) : List String :=
  pyFrameworkIndicators.foldl (fun detected pr =>
    if all_imports.contains pr.1 then detected ++ [pr.2] else detected) []

/-- One candidate source file for the Python walk (one entry of the
`rglob('*.py')` enumeration). -/
structure PySrcFile where
  relParts : List String
  src : PySrc
deriving DecidableEq

/-- Aggregation state of the Python walk (map_python.py lines 267-285):
modules are grouped by `str(py_file.parent)`; the method count sums
only `cls.methods` (not properties). -/
structure PyWalkState where
  modules : List (String × List PyModuleInfo)
  all_imports : List String
  file_count : Nat
  class_count : Nat
  method_count : Nat
deriving DecidableEq

/-- Directory of a path string (`str(Path(...).parent)`). -/
def parentDir (path : String) : String :=
  String.intercalate "/" (pySplitChar path '/').dropLast

/-- One iteration of the Python collection loop. -/
def pyWalkStep (root depth : String) (excludes : List String) (st : PyWalkState)
    (f : PySrcFile) : PyWalkState :=
  if should_exclude f.relParts excludes then st
  else match (python_parse_module (pathJoin root f.relParts) f.src depth).1 with
    | none => st
    | some m =>
      { modules := dictAppend st.modules (parentDir (pathJoin root f.relParts)) m
        all_imports := st.all_imports ++ m.imports
        file_count := st.file_count + 1
        class_count := st.class_count + m.classes.length
        method_count := st.method_count + (m.classes.map (fun c => c.methods.length)).sum }

/-- The Python tree walk. -/
def python_walk (root depth : String) (excludes : List String) (files : List PySrcFile) :
    PyWalkState :=
  files.foldl (pyWalkStep root depth excludes) ⟨[], [], 0, 0, 0⟩

/-- `format_class` from map_python.py. -/
def python_format_class (cls : PyClassInfo) : String :=
  let part0 := "`" ++ cls.name ++
    (if !cls.bases.isEmpty then "(" ++ String.intercalate ", " cls.bases ++ ")" else "") ++ "`"
  let parts1 := if cls.is_dataclass then ["[dataclass]"] else []
  let parts2 :=
    if !cls.methods.isEmpty then
      ["→ " ++ String.intercalate ", " (cls.methods.take 5)] ++
        (if cls.methods.length > 5 then ["(+" ++ toString (cls.methods.length - 5) ++ " more)"]
         else [])
    else []
  String.intercalate " " ([part0] ++ parts1 ++ parts2)

/-- `format_output` from map_python.py: regroup the per-parent module
dictionary by directory relative to the root, sort directory keys and
modules within a directory by path, and render. -/
def python_format_output (modules : List (String × List PyModuleInfo)) (root : String)
    (frameworks : List String) : String :=
  let title := "### Python: " ++ pathName root ++ "/"
  let fwLines :=
    if !frameworks.isEmpty then
      ["**Frameworks detected:** " ++ String.intercalate ", " frameworks, ""]
    else []
  let dir_modules := modules.foldl (fun d kv =>
    kv.2.foldl (fun d mod => dictAppend d (relDirName root mod.path) mod) d) []
  let dirLines := (stableSort strLt (dir_modules.map Prod.fst)).foldl (fun lines dir_name =>
    let mods := dictGet dir_modules dir_name
    let indent := if dir_name != "" then "  " else ""
    let header := if dir_name != "" then ["- `" ++ dir_name ++ "/`"] else []
    let modLines := (stableSort (fun a b => strLt a.path b.path) mods).foldl (fun ls mod =>
      let filename := pathName mod.path
      if filename == "__init__.py" && mod.classes.isEmpty && mod.functions.isEmpty then ls
      else
        let clsParts := mod.classes.map (fun cls => indent ++ "  - " ++ python_format_class cls)
        let fnParts :=
          if !mod.functions.isEmpty then
            [indent ++ "  - Functions: " ++ String.intercalate ", " (mod.functions.take 5) ++
              (if mod.functions.length > 5 then
                " (+" ++ toString (mod.functions.length - 5) ++ " more)" else "")]
          else []
        let mod_parts := [indent ++ "- `" ++ filename ++ "`:"] ++ clsParts ++ fnParts
        if mod_parts.length > 1 then ls ++ mod_parts else ls) []
    lines ++ header ++ modLines) []
  String.intercalate "\n" ([title] ++ fwLines ++ dirLines)

/-- The trailing statistics comment of map_python.py's `main`. -/
def python_stats (file_count class_count method_count : Nat) : String :=
  "\n<!-- Python: " ++ toString file_count ++ " files, " ++ toString class_count ++
    " classes, " ++ toString method_count ++ " methods -->\n"

/-- `main` from map_python.py, root-existence check to output text. -/
def python_main (rootExists : Bool) (root : String) (files : List PySrcFile)
    (depth excludeArg : String) : Except Nat String :=
  if !rootExists then .error 1
  else
    let excludes := pyDefaultExcludes ++ (if excludeArg != "" then pySplitChar excludeArg ','
      else [])
    let st := python_walk root depth excludes files
    let frameworks := python_detect_frameworks st.all_imports
    let output := python_format_output st.modules root frameworks
    .ok (output ++ python_stats st.file_count st.class_count st.method_count)

/-! ## Totals used by the depth-monotonicity claim -/

/-- Total member count of a parsed C# file. -/
def csharp_total_members (path : String) (content : List Char) (depth : String) : Nat :=
  (((csharp_extract path content depth).types).map (fun t => t.members.length)).sum

/-- Total member count of a parsed TypeScript file. -/
def ts_total_members (fi : TsFileInfo) : Nat :=
  ((fi.types).map (fun t => t.members.length)).sum

/-- Total member count (methods and properties) of a parsed Python
module. -/
def python_total_members (mi : PyModuleInfo) : Nat :=
  ((mi.classes).map (fun c => c.methods.length + c.properties.length)).sum

/-- Member total of one Python class record. -/
def pyTotal (c : PyClassInfo) : Nat := c.methods.length + c.properties.length

/-- Per-node class extraction of the walk loop, used to characterise
the classes component of `python_extract`. -/
def pyClassOf (depth : String) (n : PyNode) : Option PyClassInfo :=
  match n with
  | .classDef nm b d bd => some (python_parse_class nm b d bd depth)
  | _ => none

/-- The example file text of the spec's C8 property:
`class Foo extends Bar { public void Baz() {} private void Hidden() {} }`. -/
def c8Text : List Char :=
  "class Foo extends Bar \x7b public void Baz() \x7b\x7d private void Hidden() \x7b\x7d \x7d".toList

/-- A TypeScript file declaring one class with one method. -/
def tsOneMethod : List Char := "class A \x7b m() \x7b\x7d \x7d".toList

/-- A TypeScript file declaring one class with two methods. -/
def tsTwoMethods : List Char := "class A \x7b m() \x7b\x7d n() \x7b\x7d \x7d".toList

/-! ## Claim theorems -/

/-- C1.  The delimiter balancer, as claimed, should return the offset of
the closing brace that brings the running depth to zero, or the text
length, with the returned offset between the start offset and the text
length for every text and every start offset.  The bound `start ≤
result` fails when the start offset exceeds the text length: the
function then returns the text length, which is smaller.  Concretely,
on the text `"ab"` with start offset `5` it returns `2 < 5`. -/
theorem C1_counterexample :
    find_type_end "ab".toList 5 = "ab".toList.length ∧ find_type_end "ab".toList 5 < 5 := by
  decide

/-- C1 (amended).  For every text and start offset, `find_type_end` and
`find_block_end` agree, never raise (they are total functions), and
return an offset that is at most the text length; when the start offset
is at most the text length the returned offset is at least the start
offset; when the returned offset is below the text length it points at
a closing brace whose running depth (counted from the start offset) is
zero; and whenever such a closing brace exists the function does return
an offset below the text length (it returns the text length only when
no such closer exists). -/
theorem C1_find_end_contract (content : List Char) (start : Nat) :
    find_type_end content start = find_block_end content start
    ∧ find_type_end content start ≤ content.length
    ∧ (start ≤ content.length → start ≤ find_type_end content start)
    ∧ (find_type_end content start < content.length →
        content.get? (find_type_end content start) = some '\x7d'
        ∧ braceDeltaSum ((content.drop start).take (find_type_end content start + 1 - start)) = 0)
    ∧ ((∃ j, j < content.length - start ∧ content.get? (start + j) = some '\x7d'
          ∧ braceDeltaSum ((content.drop start).take (j + 1)) = 0)
        → find_type_end content start < content.length) := by
  have hlen : (content.drop start).length = content.length - start := List.length_drop start content
  refine ⟨rfl, ?_, ?_, ?_, ?_⟩
  · rcases ftGo_cases (content.drop start) start 0 content.length with h | ⟨j, hj, hval, _, _⟩
    · exact Nat.le_of_eq h
    · show ftGo (content.drop start) start 0 content.length ≤ content.length
      rw [hval]
      omega
  · intro hs
    rcases ftGo_cases (content.drop start) start 0 content.length with h | ⟨j, hj, hval, _, _⟩
    · show start ≤ ftGo (content.drop start) start 0 content.length
      rw [h]; exact hs
    · show start ≤ ftGo (content.drop start) start 0 content.length
      rw [hval]; omega
  · intro hlt
    rcases ftGo_cases (content.drop start) start 0 content.length with h | ⟨j, hj, hval, hget, hsum⟩
    · exact absurd (show find_type_end content start = content.length from h)
        (Nat.ne_of_lt hlt)
    · have hres : find_type_end content start = start + j := hval
      constructor
      · rw [hres, ← List.get?_drop]
        exact hget
      · rw [hres]
        have : start + j + 1 - start = j + 1 := by omega
        rw [this]
        omega
  · rintro ⟨j, hj, hget, hsum⟩
    have hex : ∃ j0, j0 < (content.drop start).length ∧
        ftGo (content.drop start) start 0 content.length = start + j0 := by
      apply ftGo_exists
      refine ⟨j, by omega, ?_, by omega⟩
      rw [List.get?_drop]
      exact hget
    rcases hex with ⟨j0, hj0, hval⟩
    show ftGo (content.drop start) start 0 content.length < content.length
    rw [hval]
    omega

/-- C1 witness: the contract applied at the text `"a{b} c"` with start
offset `0`, discharging both hypotheses there. -/
theorem C1_find_end_contract_witness :
    0 ≤ find_type_end "a\x7bb\x7d c".toList 0
    ∧ find_type_end "a\x7bb\x7d c".toList 0 < "a\x7bb\x7d c".toList.length :=
  ⟨(C1_find_end_contract _ 0).2.2.1 (by decide),
   (C1_find_end_contract _ 0).2.2.2.2 ⟨3, by decide, by decide, by decide⟩⟩

lemma length_filterMap_mono {α β : Type} (f g : α → Option β) (l : List α)
    (h : ∀ a b, f a = some b → g a = some b) :
    (l.filterMap f).length ≤ (l.filterMap g).length := by
  induction l with
  | nil => simp
  | cons a tl ih =>
    cases hfa : f a with
    | none =>
      cases hga : g a with
      | none => simpa [List.filterMap_cons, hfa, hga] using ih
      | some bg =>
        simp only [List.filterMap_cons, hfa, hga, List.length_cons]
        exact Nat.le_succ_of_le ih
    | some bf =>
      have hgb := h a bf hfa
      simp only [List.filterMap_cons, hfa, hgb, List.length_cons]
      exact Nat.succ_le_succ ih

lemma csMethodMember_mono (tn : String) (m : RxMatch) (b : MemberInfo)
    (h : csMethodMember tn "methods" m = some b) : csMethodMember tn "full" m = some b := by
  unfold csMethodMember at h ⊢
  simp only [show (("methods" != "full") = true) from by decide,
    show (("full" != "full") = false) from by decide, Bool.true_and, Bool.false_and,
    if_false, Bool.false_eq_true] at h ⊢
  by_cases hpriv : (strContains (capGet m.caps "modifiers") "private" ||
      strContains (capGet m.caps "modifiers") "protected") = true
  · rw [if_pos hpriv] at h
    exact absurd h (by simp)
  · rw [if_neg hpriv] at h
    exact h

lemma csPropMember_mono (m : RxMatch) (b : MemberInfo)
    (h : csPropMember "methods" m = some b) : csPropMember "full" m = some b := by
  unfold csPropMember at h ⊢
  simp only [show (("methods" != "full") = true) from by decide,
    show (("full" != "full") = false) from by decide, Bool.true_and, Bool.false_and,
    if_false, Bool.false_eq_true] at h ⊢
  by_cases hpriv : (strContains (capGet m.caps "modifiers") "private" ||
      strContains (capGet m.caps "modifiers") "protected") = true
  · rw [if_pos hpriv] at h
    exact absurd h (by simp)
  · rw [if_neg hpriv] at h
    exact h

lemma cs_type_members_mono (name kind : String) (mStart mEnd : Nat) (content : List Char) :
    (csharp_type_members name kind mStart mEnd content "classes").length ≤
      (csharp_type_members name kind mStart mEnd content "methods").length
    ∧ (csharp_type_members name kind mStart mEnd content "methods").length ≤
      (csharp_type_members name kind mStart mEnd content "full").length := by
  unfold csharp_type_members
  constructor
  · simp only [show (("classes" != "classes") = false) from by decide, Bool.false_and,
      Bool.false_eq_true, if_false, List.length_nil]
    exact Nat.zero_le _
  · simp only [show (("methods" != "classes") = true) from by decide,
      show (("full" != "classes") = true) from by decide, Bool.true_and]
    by_cases hk : (kind != "enum") = true
    · rw [if_pos hk, if_pos hk]
      simp only [List.length_append]
      have h1 := length_filterMap_mono (csMethodMember name "methods")
        (csMethodMember name "full")
        (findIter csMethodRx ((content.drop mEnd).take (find_type_end content mStart - mEnd)))
        (fun a b hb => csMethodMember_mono _ a b hb)
      have h2 := length_filterMap_mono (csPropMember "methods") (csPropMember "full")
        (findIter csPropRx ((content.drop mEnd).take (find_type_end content mStart - mEnd)))
        (fun a b hb => csPropMember_mono a b hb)
      omega
    · rw [if_neg hk, if_neg hk]

lemma tsMethodMember_mono (m : RxMatch) (b : MemberInfo)
    (h : tsMethodMember "methods" m = some b) : tsMethodMember "full" m = some b := by
  unfold tsMethodMember at h ⊢
  simp only [show (("methods" != "full") = true) from by decide,
    show (("full" != "full") = false) from by decide, Bool.true_and, Bool.false_and,
    if_false, Bool.false_eq_true] at h ⊢
  by_cases hpriv : (strContains (capGet m.caps "modifier") "private") = true
  · rw [if_pos hpriv] at h
    exact absurd h (by simp)
  · rw [if_neg hpriv] at h
    exact h

lemma ts_class_members_mono (mStart mEnd : Nat) (content : List Char) :
    (ts_class_members mStart mEnd content "classes").length ≤
      (ts_class_members mStart mEnd content "methods").length
    ∧ (ts_class_members mStart mEnd content "methods").length ≤
      (ts_class_members mStart mEnd content "full").length := by
  unfold ts_class_members
  constructor
  · simp only [show (("classes" != "classes") = false) from by decide, Bool.false_eq_true,
      if_false, List.length_nil]
    exact Nat.zero_le _
  · simp only [show (("methods" != "classes") = true) from by decide,
      show (("full" != "classes") = true) from by decide, if_true]
    exact length_filterMap_mono _ _ _ (fun a b hb => tsMethodMember_mono a b hb)

lemma tsArrowStep_members_sum (cnc : List Char) (ts : List TsTypeInfo) (m : RxMatch) :
    ((tsArrowStep cnc ts m).map (fun t => t.members.length)).sum =
      (ts.map (fun t => t.members.length)).sum := by
  unfold tsArrowStep
  by_cases h1 : (capGet m.caps "export" == "") = true
  · rw [if_pos h1]
  · rw [if_neg h1]
    by_cases h2 : (ts.any (fun t => t.name == capGet m.caps "name")) = true
    · rw [if_pos h2]
    · rw [if_neg h2]
      simp [List.map_append, List.sum_append]

lemma arrow_fold_members_sum (cnc : List Char) (ms : List RxMatch) (init : List TsTypeInfo) :
    ((ms.foldl (tsArrowStep cnc) init).map (fun t => t.members.length)).sum =
      (init.map (fun t => t.members.length)).sum := by
  induction ms generalizing init with
  | nil => rfl
  | cons m rest ih =>
    rw [List.foldl_cons, ih, tsArrowStep_members_sum]

lemma map_members_sum_zero (l : List RxMatch) (f : RxMatch → TsTypeInfo)
    (h : ∀ m, (f m).members = []) :
    ((l.map f).map (fun t => t.members.length)).sum = 0 := by
  induction l with
  | nil => rfl
  | cons m rest ih =>
    simp only [List.map_cons, List.sum_cons, h m, List.length_nil, ih]

lemma ts_parse_class_members (m : RxMatch) (cnc : List Char) (depth : String) :
    (ts_parse_class m cnc depth).members = ts_class_members m.mStart m.mEnd cnc depth := rfl

lemma ts_file_types_members_sum (cnc : List Char) (depth : String) :
    ((ts_file_types cnc depth).map (fun t => t.members.length)).sum =
      ((findIter tsClassRx cnc).map
        (fun m => (ts_class_members m.mStart m.mEnd cnc depth).length)).sum := by
  unfold ts_file_types
  rw [arrow_fold_members_sum]
  simp only [List.map_append, List.sum_append]
  unfold tsClassTypes tsInterfaceTypes tsAliasTypes tsEnumTypes tsFuncTypes tsFcTypes
  rw [map_members_sum_zero (findIter tsInterfaceRx cnc) _ (fun m => rfl),
    map_members_sum_zero (findIter tsAliasRx cnc) _ (fun m => rfl),
    map_members_sum_zero (findIter tsEnumRx cnc) _ (fun m => rfl),
    map_members_sum_zero (findIter tsFunctionRx cnc) _ (fun m => rfl),
    map_members_sum_zero (findIter tsReactFcRx cnc) _ (fun m => rfl),
    List.map_map]
  have hfun : ((fun t => t.members.length) ∘ fun m => ts_parse_class m cnc depth) =
      (fun m => (ts_class_members m.mStart m.mEnd cnc depth).length) := rfl
  rw [hfun]
  omega


lemma py_fold_total_mono (body : List PyStmt) :
    ∀ (am af : List String × List String),
      am.1.length + am.2.length ≤ af.1.length + af.2.length →
      (body.foldl (pyClassStep "methods") am).1.length +
        (body.foldl (pyClassStep "methods") am).2.length ≤
      (body.foldl (pyClassStep "full") af).1.length +
        (body.foldl (pyClassStep "full") af).2.length := by
  induction body with
  | nil => intro am af h; simpa using h
  | cons item rest ih =>
    intro am af h
    rw [List.foldl_cons, List.foldl_cons]
    apply ih
    cases item with
    | otherS => simpa [pyClassStep] using h
    | funcDef iname idecs iasync =>
      by_cases h1 : strStarts iname "_" = true <;>
        by_cases h2 : strStarts iname "__" = true <;>
        by_cases h3 : (iname != "__init__") = true <;>
        by_cases h4 : ((idecs.map extract_decorator_name).contains "property") = true <;>
        simp only [pyClassStep, h1, h2, h3, h4,
          show (("methods" != "full") = true) from by decide,
          show (("full" != "full") = false) from by decide,
          Bool.true_and, Bool.false_and, Bool.and_true, Bool.and_false, Bool.not_true,
          Bool.not_false, Bool.and_self, if_true, if_false, Bool.false_eq_true,
          Bool.true_eq_false, List.length_append, List.length_cons, List.length_nil] <;>
        omega

lemma python_parse_class_total_mono (name : String) (basesE decs : List PyExpr)
    (body : List PyStmt) :
    pyTotal (python_parse_class name basesE decs body "classes") = 0
    ∧ pyTotal (python_parse_class name basesE decs body "methods") ≤
      pyTotal (python_parse_class name basesE decs body "full") := by
  constructor
  · show (([] : List String).length + ([] : List String).length = 0)
    rfl
  · show (body.foldl (pyClassStep "methods") ([], [])).1.length +
        (body.foldl (pyClassStep "methods") ([], [])).2.length ≤
      (body.foldl (pyClassStep "full") ([], [])).1.length +
        (body.foldl (pyClassStep "full") ([], [])).2.length
    exact py_fold_total_mono body ([], []) ([], []) (Nat.le_refl 0)


lemma py_fold_classes (depth : String) (nodes : List PyNode) :
    ∀ acc : List PyClassInfo × List String × List String,
      (nodes.foldl (pyModuleStep depth) acc).1 = acc.1 ++ nodes.filterMap (pyClassOf depth) := by
  induction nodes with
  | nil => intro acc; simp
  | cons node rest ih =>
    intro acc
    rw [List.foldl_cons, List.filterMap_cons]
    cases node with
    | classDef nm b d bd =>
      rw [ih]
      simp [pyModuleStep, pyClassOf]
    | funcNode n ia col =>
      rw [ih]
      have h1 : (pyModuleStep depth acc (.funcNode n ia col)).1 = acc.1 := by
        unfold pyModuleStep
        by_cases hc : (col == 0) = true <;>
          by_cases hd : (depth != "classes") = true <;>
          by_cases hn : (!(strStarts n "_") || depth == "full") = true <;>
          simp [hc, hd, hn]
      rw [h1]
      rfl
    | importNode names =>
      rw [ih]
      rfl
    | importFrom m =>
      rw [ih]
      cases m with
      | some mn => rfl
      | none => rfl
    | otherNode =>
      rw [ih]
      rfl

lemma python_extract_classes (path : String) (nodes : List PyNode) (depth : String) :
    (python_extract path nodes depth).classes = nodes.filterMap (pyClassOf depth) := by
  show (nodes.foldl (pyModuleStep depth) ([], [], [])).1 = nodes.filterMap (pyClassOf depth)
  rw [py_fold_classes]
  rfl

lemma py_classes_sum_mono (nodes : List PyNode) :
    ((nodes.filterMap (pyClassOf "classes")).map pyTotal).sum ≤
      ((nodes.filterMap (pyClassOf "methods")).map pyTotal).sum
    ∧ ((nodes.filterMap (pyClassOf "methods")).map pyTotal).sum ≤
      ((nodes.filterMap (pyClassOf "full")).map pyTotal).sum := by
  induction nodes with
  | nil => exact ⟨Nat.le_refl _, Nat.le_refl _⟩
  | cons node rest ih =>
    cases node with
    | classDef nm b d bd =>
      simp only [List.filterMap_cons, pyClassOf, List.map_cons, List.sum_cons]
      have hm := python_parse_class_total_mono nm b d bd
      exact ⟨Nat.add_le_add (by rw [hm.1]; exact Nat.zero_le _) ih.1,
        Nat.add_le_add hm.2 ih.2⟩
    | funcNode n ia col => simpa only [List.filterMap_cons, pyClassOf] using ih
    | importNode names => simpa only [List.filterMap_cons, pyClassOf] using ih
    | importFrom m => simpa only [List.filterMap_cons, pyClassOf] using ih
    | otherNode => simpa only [List.filterMap_cons, pyClassOf] using ih

lemma cs_parse_type_members (m : RxMatch) (content : List Char) (depth : String) :
    (csharp_parse_type m content depth).members =
      csharp_type_members (capGet m.caps "name") (capGet m.caps "kind") m.mStart m.mEnd
        content depth := rfl

lemma cs_extract_types (path : String) (content : List Char) (depth : String) :
    (csharp_extract path content depth).types =
      (findIter csTypeRx content).map (fun m => csharp_parse_type m content depth) := rfl

/-- C3.  Depth-policy monotonicity: for a fixed input file the total
number of extracted members under `classes` is at most the total under
`methods`, which is at most the total under `full`, in all three front
ends (Python over any parsed module tree, C# and TypeScript over any
file text). -/
theorem C3_depth_monotonicity :
    (∀ (path : String) (nodes : List PyNode),
      python_total_members (python_extract path nodes "classes") ≤
        python_total_members (python_extract path nodes "methods")
      ∧ python_total_members (python_extract path nodes "methods") ≤
        python_total_members (python_extract path nodes "full"))
    ∧ (∀ (path : String) (content : List Char),
      csharp_total_members path content "classes" ≤ csharp_total_members path content "methods"
      ∧ csharp_total_members path content "methods" ≤ csharp_total_members path content "full")
    ∧ (∀ (path : String) (content : List Char),
      ((ts_parse_file path (some content) "classes").map ts_total_members).getD 0 ≤
        ((ts_parse_file path (some content) "methods").map ts_total_members).getD 0
      ∧ ((ts_parse_file path (some content) "methods").map ts_total_members).getD 0 ≤
        ((ts_parse_file path (some content) "full").map ts_total_members).getD 0) := by
  refine ⟨?_, ?_, ?_⟩
  · intro path nodes
    unfold python_total_members
    rw [python_extract_classes, python_extract_classes, python_extract_classes]
    have h := py_classes_sum_mono nodes
    exact h
  · intro path content
    unfold csharp_total_members
    rw [cs_extract_types, cs_extract_types, cs_extract_types,
      List.map_map, List.map_map, List.map_map]
    have hfun : ∀ depth, ((fun t => t.members.length) ∘ fun m => csharp_parse_type m content depth)
        = (fun m : RxMatch => (csharp_type_members (capGet m.caps "name") (capGet m.caps "kind")
            m.mStart m.mEnd content depth).length) := fun depth => rfl
    rw [hfun, hfun, hfun]
    constructor
    · exact List.sum_le_sum (fun m _ => (cs_type_members_mono (capGet m.caps "name")
        (capGet m.caps "kind") m.mStart m.mEnd content).1)
    · exact List.sum_le_sum (fun m _ => (cs_type_members_mono (capGet m.caps "name")
        (capGet m.caps "kind") m.mStart m.mEnd content).2)
  · intro path content
    show (ts_total_members ⟨path, ts_file_types (tsStripComments content) "classes", _⟩ ≤
        ts_total_members ⟨path, ts_file_types (tsStripComments content) "methods", _⟩)
      ∧ (ts_total_members ⟨path, ts_file_types (tsStripComments content) "methods", _⟩ ≤
        ts_total_members ⟨path, ts_file_types (tsStripComments content) "full", _⟩)
    unfold ts_total_members
    rw [ts_file_types_members_sum, ts_file_types_members_sum, ts_file_types_members_sum]
    constructor
    · exact List.sum_le_sum (fun m _ =>
        (ts_class_members_mono m.mStart m.mEnd (tsStripComments content)).1)
    · exact List.sum_le_sum (fun m _ =>
        (ts_class_members_mono m.mStart m.mEnd (tsStripComments content)).2)

lemma pyWalkStep_bad (root depth : String) (excludes : List String) (st : PyWalkState)
    (bad : PySrcFile) (h : bad.src = .undecodable ∨ bad.src = .syntaxError) :
    pyWalkStep root depth excludes st bad = st := by
  unfold pyWalkStep
  by_cases hex : should_exclude bad.relParts excludes = true
  · rw [if_pos hex]
  · rw [if_neg hex]
    rcases h with h | h <;> rw [h] <;> rfl

/-- C2.  The Python run hard-fails (exit code 1, before any extraction)
exactly when the root does not exist; an undecodable or syntactically
invalid file makes `parse_module` return `Skip` (`none`) together with
a warning for the diagnostic stream; and the walk over a file list
containing such a bad file equals the walk with that file removed — a
per-file failure never aborts or otherwise disturbs the run. -/
theorem C2_skip_and_fail_contract :
    (∀ (rootExists : Bool) (root : String) (files : List PySrcFile) (depth excludeArg : String),
      (∃ out, python_main rootExists root files depth excludeArg = .ok out) ↔ rootExists = true)
    ∧ (∀ (path depth : String) (src : PySrc), (src = .undecodable ∨ src = .syntaxError) →
      (python_parse_module path src depth).1 = none
      ∧ (python_parse_module path src depth).2 ≠ [])
    ∧ (∀ (root depth : String) (excludes : List String) (pre post : List PySrcFile)
        (bad : PySrcFile), (bad.src = .undecodable ∨ bad.src = .syntaxError) →
      python_walk root depth excludes (pre ++ bad :: post) =
        python_walk root depth excludes (pre ++ post)) := by
  refine ⟨?_, ?_, ?_⟩
  · intro rootExists root files depth excludeArg
    cases rootExists with
    | false =>
      constructor
      · rintro ⟨out, hout⟩
        exact absurd hout (by simp [python_main])
      · intro h
        exact absurd h (by simp)
    | true =>
      constructor
      · intro _
        rfl
      · intro _
        exact ⟨_, rfl⟩
  · intro path depth src h
    rcases h with h | h <;> rw [h] <;> exact ⟨rfl, by simp [python_parse_module]⟩
  · intro root depth excludes pre post bad h
    unfold python_walk
    rw [List.foldl_append, List.foldl_append, List.foldl_cons,
      pyWalkStep_bad root depth excludes _ bad h]

/-- C2 witness: a syntactically invalid file is skipped with a warning
and its removal leaves the walk unchanged, at concrete inputs. -/
theorem C2_skip_and_fail_contract_witness :
    (python_parse_module "r/bad.py" PySrc.syntaxError "methods").1 = none
    ∧ python_walk "r" "methods" pyDefaultExcludes
        ([⟨["ok.py"], PySrc.parsed []⟩] ++ (⟨["bad.py"], PySrc.syntaxError⟩ : PySrcFile) :: []) =
      python_walk "r" "methods" pyDefaultExcludes ([⟨["ok.py"], PySrc.parsed []⟩] ++ []) :=
  ⟨(C2_skip_and_fail_contract.2.1 "r/bad.py" "methods" PySrc.syntaxError (Or.inr rfl)).1,
   C2_skip_and_fail_contract.2.2 "r" "methods" pyDefaultExcludes
     [⟨["ok.py"], PySrc.parsed []⟩] [] ⟨["bad.py"], PySrc.syntaxError⟩ (Or.inr rfl)⟩

/-- C5.  Exclusion correctness: a relative path with any segment that
equals (case-sensitively, by string equality) a configured exclude or
starts with a dot is flagged by `should_exclude` regardless of segment
order; the walk step on such a file is the identity in both the Python
and C# walkers (the file is never parsed), and for any depth policy the
whole walk over a list containing such a file equals the walk with the
file removed — so the file never appears in the aggregate model. -/
theorem C5_exclusion_correctness :
    (∀ (parts excludes : List String),
      (∃ seg, seg ∈ parts ∧ (seg ∈ excludes ∨ strStarts seg "." = true)) →
      should_exclude parts excludes = true)
    ∧ (∀ (root depth : String) (excludes : List String) (st : PyWalkState) (f : PySrcFile),
      should_exclude f.relParts excludes = true → pyWalkStep root depth excludes st f = st)
    ∧ (∀ (root depth : String) (excludes : List String) (pre post : List PySrcFile)
        (f : PySrcFile), should_exclude f.relParts excludes = true →
      python_walk root depth excludes (pre ++ f :: post) =
        python_walk root depth excludes (pre ++ post))
    ∧ (∀ (root depth : String) (excludes : List String) (st : CsWalkState) (f : CsSrcFile),
      should_exclude f.relParts excludes = true → csWalkStep root depth excludes st f = st)
    ∧ (∀ (root depth : String) (excludes : List String) (pre post : List CsSrcFile)
        (f : CsSrcFile), should_exclude f.relParts excludes = true →
      csharp_walk root depth excludes (pre ++ f :: post) =
        csharp_walk root depth excludes (pre ++ post)) := by
  have hstep_py : ∀ (root depth : String) (excludes : List String) (st : PyWalkState)
      (f : PySrcFile), should_exclude f.relParts excludes = true →
      pyWalkStep root depth excludes st f = st := by
    intro root depth excludes st f h
    unfold pyWalkStep
    rw [if_pos h]
  have hstep_cs : ∀ (root depth : String) (excludes : List String) (st : CsWalkState)
      (f : CsSrcFile), should_exclude f.relParts excludes = true →
      csWalkStep root depth excludes st f = st := by
    intro root depth excludes st f h
    unfold csWalkStep
    rw [if_pos h]
  refine ⟨?_, hstep_py, ?_, hstep_cs, ?_⟩
  · rintro parts excludes ⟨seg, hmem, hor⟩
    unfold should_exclude
    rw [List.any_eq_true]
    refine ⟨seg, hmem, ?_⟩
    rcases hor with h | h
    · rw [Bool.or_eq_true]
      exact Or.inl (List.elem_eq_true_of_mem h)
    · rw [Bool.or_eq_true]
      exact Or.inr h
  · intro root depth excludes pre post f h
    unfold python_walk
    rw [List.foldl_append, List.foldl_append, List.foldl_cons, hstep_py _ _ _ _ _ h]
  · intro root depth excludes pre post f h
    unfold csharp_walk
    rw [List.foldl_append, List.foldl_append, List.foldl_cons, hstep_cs _ _ _ _ _ h]

/-- C5 witness: a file under `node_modules` is flagged and dropped from
a concrete C# walk, at every one of the three depth policies by
instantiation (here `methods`). -/
theorem C5_exclusion_correctness_witness :
    should_exclude ["node_modules", "a.cs"] csDefaultExcludes = true
    ∧ csharp_walk "r" "methods" csDefaultExcludes
        ([] ++ (⟨["node_modules", "a.cs"], [], none⟩ : CsSrcFile) :: []) =
      csharp_walk "r" "methods" csDefaultExcludes ([] ++ []) :=
  ⟨C5_exclusion_correctness.1 ["node_modules", "a.cs"] csDefaultExcludes
     ⟨"node_modules", by decide, Or.inl (by decide)⟩,
   C5_exclusion_correctness.2.2.2.2 "r" "methods" csDefaultExcludes [] []
     ⟨["node_modules", "a.cs"], [], none⟩
     (C5_exclusion_correctness.1 ["node_modules", "a.cs"] csDefaultExcludes
       ⟨"node_modules", by decide, Or.inl (by decide)⟩)⟩

/-- C6 counterexample.  The claimed hit criterion is an iff with
"equals the prefix or prefix followed by a path/namespace separator";
the C# detector hits `"Serilogger"` on the entry `"Serilog"` by bare
`startswith`, although the identifier neither equals the prefix nor
continues it with any separator character. -/
theorem C6_counterexample :
    csharp_detect_frameworks ["Serilogger"] = ["Serilog"]
    ∧ "Serilogger" ≠ "Serilog"
    ∧ strStarts "Serilogger" "Serilog." = false
    ∧ strStarts "Serilogger" "Serilog/" = false
    ∧ strStarts "Serilogger" "Serilog-" = false
    ∧ strStarts "Serilogger" "Serilog\\" = false := by
  decide

lemma fwDetectLoop_mem (hit : String → Bool) (tbl : List (String × String)) :
    ∀ (acc : List String) (x : String),
      x ∈ fwDetectLoop hit tbl acc ↔ x ∈ acc ∨ ∃ p, (p, x) ∈ tbl ∧ hit p = true := by
  induction tbl with
  | nil =>
    intro acc x
    simp [fwDetectLoop]
  | cons pr rest ih =>
    intro acc x
    cases pr with
    | mk p n =>
      show x ∈ fwDetectLoop hit rest
        (if hit p then (if acc.contains n then acc else acc ++ [n]) else acc) ↔ _
      rw [ih]
      by_cases hh : hit p = true
      · rw [if_pos hh]
        by_cases hx : acc.contains n = true
        · rw [if_pos hx]
          constructor
          · rintro (h | ⟨p', hp', hh'⟩)
            · exact Or.inl h
            · exact Or.inr ⟨p', List.mem_cons_of_mem _ hp', hh'⟩
          · rintro (h | ⟨p', hp', hh'⟩)
            · exact Or.inl h
            · rcases List.mem_cons.mp hp' with heq | hmem
              · injection heq with hpe hxe
                exact Or.inl (hxe ▸ List.mem_of_elem_eq_true hx)
              · exact Or.inr ⟨p', hmem, hh'⟩
        · rw [if_neg hx]
          constructor
          · rintro (h | ⟨p', hp', hh'⟩)
            · rcases List.mem_append.mp h with ha | hb
              · exact Or.inl ha
              · have hxe : x = n := by simpa using hb
                exact Or.inr ⟨p, by simp [hxe], hh⟩
            · exact Or.inr ⟨p', List.mem_cons_of_mem _ hp', hh'⟩
          · rintro (h | ⟨p', hp', hh'⟩)
            · exact Or.inl (List.mem_append.mpr (Or.inl h))
            · rcases List.mem_cons.mp hp' with heq | hmem
              · injection heq with hpe hxe
                exact Or.inl (List.mem_append.mpr (Or.inr (by simp [hxe])))
              · exact Or.inr ⟨p', hmem, hh'⟩
      · rw [if_neg hh]
        constructor
        · rintro (h | ⟨p', hp', hh'⟩)
          · exact Or.inl h
          · exact Or.inr ⟨p', List.mem_cons_of_mem _ hp', hh'⟩
        · rintro (h | ⟨p', hp', hh'⟩)
          · exact Or.inl h
          · rcases List.mem_cons.mp hp' with heq | hmem
            · injection heq with hpe hxe
              exact absurd (hpe ▸ hh') hh
            · exact Or.inr ⟨p', hmem, hh'⟩

lemma fwDetectLoop_order (hit : String → Bool) (tbl : List (String × String)) :
    ∀ acc : List String, ∃ r, fwDetectLoop hit tbl acc = acc ++ r
      ∧ r.Sublist (tbl.map Prod.snd) ∧ (acc.Nodup → (acc ++ r).Nodup) := by
  induction tbl with
  | nil =>
    intro acc
    exact ⟨[], by simp [fwDetectLoop], List.nil_sublist _, fun h => by simpa⟩
  | cons pr rest ih =>
    intro acc
    cases pr with
    | mk p n =>
      show ∃ r, fwDetectLoop hit rest
        (if hit p then (if acc.contains n then acc else acc ++ [n]) else acc) = acc ++ r ∧ _
      by_cases hh : hit p = true
      · by_cases hx : acc.contains n = true
        · rw [if_pos hh, if_pos hx]
          rcases ih acc with ⟨r, hr, hsub, hnd⟩
          exact ⟨r, hr, hsub.cons _, hnd⟩
        · rw [if_pos hh, if_neg hx]
          rcases ih (acc ++ [n]) with ⟨r, hr, hsub, hnd⟩
          refine ⟨n :: r, ?_, hsub.cons₂ _, ?_⟩
          · rw [hr, List.append_assoc]
            rfl
          · intro hacc
            have hne : n ∉ acc := fun hmem => hx (List.elem_eq_true_of_mem hmem)
            have h1 : (acc ++ [n]).Nodup := by
              rw [List.nodup_append]
              refine ⟨hacc, List.nodup_singleton n, ?_⟩
              intro a ha hb
              rw [List.mem_singleton] at hb
              exact hne (hb ▸ ha)
            have h2 := hnd h1
            rw [List.append_assoc] at h2
            exact h2
      · rw [if_neg hh]
        rcases ih acc with ⟨r, hr, hsub, hnd⟩
        exact ⟨r, hr, hsub.cons _, hnd⟩

lemma python_detect_spec (us : List String) :
    python_detect_frameworks us =
      (pyFrameworkIndicators.filter (fun pr => us.contains pr.1)).map Prod.snd := by
  suffices h : ∀ (tbl : List (String × String)) (acc : List String),
      tbl.foldl (fun detected pr => if us.contains pr.1 then detected ++ [pr.2] else detected)
        acc = acc ++ (tbl.filter (fun pr => us.contains pr.1)).map Prod.snd by
    have h0 := h pyFrameworkIndicators []
    rw [List.nil_append] at h0
    exact h0
  intro tbl
  induction tbl with
  | nil => intro acc; simp
  | cons pr rest ih =>
    intro acc
    rw [List.foldl_cons, List.filter_cons]
    by_cases hc : us.contains pr.1 = true
    · rw [if_pos hc, ih, if_pos hc]
      simp
    · rw [if_neg hc, ih, if_neg hc]

/-- C6 (amended).  The hit criterion differs per front end — Python
requires exact equality of the import with the mapping key, C# requires
only that a using start with the key (no separator needed), TypeScript
requires equality or the key followed by `/` or `-` — while in all
three the returned display names follow the static mapping's
declaration order (a sublist of it) and contain each name at most
once. -/
theorem C6_detect_contract :
    (∀ (us : List String) (x : String),
      x ∈ python_detect_frameworks us ↔
        ∃ p, (p, x) ∈ pyFrameworkIndicators ∧ us.contains p = true)
    ∧ (∀ us : List String, (python_detect_frameworks us).Sublist
        (pyFrameworkIndicators.map Prod.snd) ∧ (python_detect_frameworks us).Nodup)
    ∧ (∀ (us : List String) (x : String),
      x ∈ csharp_detect_frameworks us ↔
        ∃ p, (p, x) ∈ csFrameworkIndicators ∧ us.any (fun u => strStarts u p) = true)
    ∧ (∀ us : List String, (csharp_detect_frameworks us).Sublist
        (csFrameworkIndicators.map Prod.snd) ∧ (csharp_detect_frameworks us).Nodup)
    ∧ (∀ (us : List String) (x : String),
      x ∈ ts_detect_frameworks us ↔
        ∃ p, (p, x) ∈ tsFrameworkIndicators ∧
          us.any (fun i => i == p || strStarts i (p ++ "/") || strStarts i (p ++ "-")) = true)
    ∧ (∀ us : List String, (ts_detect_frameworks us).Sublist
        (tsFrameworkIndicators.map Prod.snd) ∧ (ts_detect_frameworks us).Nodup) := by
  refine ⟨?_, ?_, ?_, ?_, ?_, ?_⟩
  · intro us x
    rw [python_detect_spec]
    constructor
    · intro h
      rcases List.mem_map.mp h with ⟨pr, hmem, hsnd⟩
      rcases List.mem_filter.mp hmem with ⟨htbl, hc⟩
      refine ⟨pr.1, ?_, hc⟩
      rw [← hsnd, Prod.mk.eta]
      exact htbl
    · rintro ⟨p, hmem, hc⟩
      exact List.mem_map.mpr ⟨(p, x), List.mem_filter.mpr ⟨hmem, hc⟩, rfl⟩
  · intro us
    rw [python_detect_spec]
    have hsub : ((pyFrameworkIndicators.filter (fun pr => us.contains pr.1)).map
        Prod.snd).Sublist (pyFrameworkIndicators.map Prod.snd) :=
      (List.filter_sublist _).map Prod.snd
    exact ⟨hsub, hsub.nodup (by decide)⟩
  · intro us x
    have h := fwDetectLoop_mem (fun pre => us.any (fun u => strStarts u pre))
      csFrameworkIndicators [] x
    rw [show csharp_detect_frameworks us = fwDetectLoop
      (fun pre => us.any (fun u => strStarts u pre)) csFrameworkIndicators [] from rfl, h]
    simp
  · intro us
    rcases fwDetectLoop_order (fun pre => us.any (fun u => strStarts u pre))
      csFrameworkIndicators [] with ⟨r, hr, hsub, hnd⟩
    rw [show csharp_detect_frameworks us = fwDetectLoop
      (fun pre => us.any (fun u => strStarts u pre)) csFrameworkIndicators [] from rfl, hr]
    exact ⟨by simpa using hsub, by simpa using hnd (List.nodup_nil)⟩
  · intro us x
    have h := fwDetectLoop_mem (fun imp => us.any (fun i =>
      i == imp || strStarts i (imp ++ "/") || strStarts i (imp ++ "-"))) tsFrameworkIndicators [] x
    rw [show ts_detect_frameworks us = fwDetectLoop (fun imp => us.any (fun i =>
      i == imp || strStarts i (imp ++ "/") || strStarts i (imp ++ "-")))
      tsFrameworkIndicators [] from rfl, h]
    simp
  · intro us
    rcases fwDetectLoop_order (fun imp => us.any (fun i =>
      i == imp || strStarts i (imp ++ "/") || strStarts i (imp ++ "-")))
      tsFrameworkIndicators [] with ⟨r, hr, hsub, hnd⟩
    rw [show ts_detect_frameworks us = fwDetectLoop (fun imp => us.any (fun i =>
      i == imp || strStarts i (imp ++ "/") || strStarts i (imp ++ "-")))
      tsFrameworkIndicators [] from rfl, hr]
    exact ⟨by simpa using hsub, by simpa using hnd (List.nodup_nil)⟩

/-- C7.  Renderer determinism: each of the three `format_output`
functions is embedded as a pure function of the aggregate model, the
root label and the framework list — the source consults no clock,
randomness or global mutable state, and Python's `sorted` and dict
iteration are deterministic — so rendering the same arguments twice
yields byte-identical text. -/
theorem C7_renderer_determinism :
    (∀ (files : List CsFileInfo) (root : String) (frameworks : List String),
      csharp_format_output files root frameworks = csharp_format_output files root frameworks)
    ∧ (∀ (modules : List (String × List PyModuleInfo)) (root : String) (fw : List String),
      python_format_output modules root fw = python_format_output modules root fw)
    ∧ (∀ (files : List TsFileInfo) (root : String) (fw : List String),
      ts_format_output files root fw = ts_format_output files root fw) :=
  ⟨fun _ _ _ => rfl, fun _ _ _ => rfl, fun _ _ _ => rfl⟩

/-- C10.  The C# decode fallback is total: latin-1 assigns a character
to every byte, so whenever UTF-8 (with BOM handling) fails, a
successful re-read always decodes; the decode stage — and hence
`parse_file` — returns `None` only when the fallback read itself
raises, never because the bytes are undecodable. -/
theorem C10_latin1_fallback_total :
    (∀ bs bs2 : List PyByte, csharp_read bs (some bs2) ≠ none)
    ∧ (∀ bs bs2 : List PyByte, utf8SigDecode bs = none →
      csharp_read bs (some bs2) = some (latin1Decode bs2))
    ∧ (∀ (bs : List PyByte) (fb : Option (List PyByte)),
      csharp_read bs fb = none → utf8SigDecode bs = none ∧ fb = none)
    ∧ (∀ (path : String) (bs : List PyByte) (fb : Option (List PyByte)) (depth : String),
      csharp_parse_file path bs fb depth = none → fb = none)
    ∧ (∀ bs : List PyByte, (latin1Decode bs).length = bs.length) := by
  have hread : ∀ (bs : List PyByte) (fb : Option (List PyByte)),
      csharp_read bs fb = none → utf8SigDecode bs = none ∧ fb = none := by
    intro bs fb h
    unfold csharp_read at h
    cases hu : utf8SigDecode bs with
    | some c => rw [hu] at h; exact absurd h (by simp)
    | none =>
      rw [hu] at h
      cases fb with
      | some bs2 => exact absurd h (by simp)
      | none => exact ⟨rfl, rfl⟩
  refine ⟨?_, ?_, hread, ?_, ?_⟩
  · intro bs bs2 h
    rcases hread bs (some bs2) h with ⟨_, hf⟩
    exact absurd hf (by simp)
  · intro bs bs2 h
    unfold csharp_read
    rw [h]
  · intro path bs fb depth h
    unfold csharp_parse_file at h
    cases hr : csharp_read bs fb with
    | some c => rw [hr] at h; exact absurd h (by simp)
    | none => exact (hread bs fb hr).2
  · intro bs
    exact List.length_map bs _

/-- C10 witness: the byte `0xFF` is invalid UTF-8, and the decode stage
nevertheless succeeds through latin-1 on a successful re-read, at
concrete inputs. -/
theorem C10_latin1_fallback_total_witness :
    csharp_read [(0xFF : PyByte)] (some [(0xFF : PyByte)]) =
      some (latin1Decode [(0xFF : PyByte)])
    ∧ (utf8SigDecode [(0xFF : PyByte)] = none ∧ (none : Option (List PyByte)) = none) :=
  ⟨C10_latin1_fallback_total.2.1 [(0xFF : PyByte)] [(0xFF : PyByte)] (by decide),
   C10_latin1_fallback_total.2.2.1 [(0xFF : PyByte)] none (by decide)⟩


/-- C8 counterexample.  Under policy `methods`, extraction of the
example file does NOT drop `Hidden()`: the repeated modifier group of
the TypeScript method pattern captures only its last repetition — the
whitespace character before the method name — so the `private` marker
is never seen by the visibility filter, and the member list is
`[Baz(), Hidden()]`, not `[Baz()]` as claimed. -/
theorem C8_counterexample :
    ((ts_parse_file "f.ts" (some c8Text) "methods").map
      (fun fi => fi.types.map (fun t => (t.name, t.bases, t.members.map MemberInfo.name)))) =
      some [("Foo", ["Bar"], ["Baz()", "Hidden()"])]
    ∧ (["Baz()", "Hidden()"] : List String) ≠ ["Baz()"] := by
  decide

/-- C8 (amended).  Extraction of the example file yields exactly one
`TypeInfo` named `Foo` with bases `["Bar"]` under both `methods` and
`full`; in both cases the members are `[Baz(), Hidden()]` — the private
member is retained even under `methods` because the captured modifier
is the trailing whitespace repetition, not the `private` keyword. -/
theorem C8_example_extraction :
    ts_parse_file "f.ts" (some c8Text) "methods" =
      some ⟨"f.ts", [⟨"Foo", "class", ["Bar"],
        [⟨"Baz()", "method", false⟩, ⟨"Hidden()", "method", false⟩], [], false⟩], []⟩
    ∧ ts_parse_file "f.ts" (some c8Text) "full" =
      some ⟨"f.ts", [⟨"Foo", "class", ["Bar"],
        [⟨"Baz()", "method", false⟩, ⟨"Hidden()", "method", false⟩], [], false⟩], []⟩ := by
  decide

lemma ts_parse_class_kind_ne_enum (m : RxMatch) (cnc : List Char) (depth : String) :
    (ts_parse_class m cnc depth).kind ≠ "enum" := by
  show (if (extract_decorators (capGet m.caps "decorators")).contains "Component" then "component"
    else if (extract_decorators (capGet m.caps "decorators")).contains "Injectable" then "service"
    else "class") ≠ "enum"
  split_ifs <;> decide

lemma tsArrow_fold_mem (cnc : List Char) (ms : List RxMatch) :
    ∀ (init : List TsTypeInfo) (t : TsTypeInfo),
      t ∈ ms.foldl (tsArrowStep cnc) init → t ∈ init ∨ t.members = [] := by
  induction ms with
  | nil => intro init t h; exact Or.inl h
  | cons m rest ih =>
    intro init t h
    rw [List.foldl_cons] at h
    rcases ih _ t h with hin | hmem
    · unfold tsArrowStep at hin
      by_cases h1 : (capGet m.caps "export" == "") = true
      · rw [if_pos h1] at hin; exact Or.inl hin
      · rw [if_neg h1] at hin
        by_cases h2 : (init.any (fun t => t.name == capGet m.caps "name")) = true
        · rw [if_pos h2] at hin; exact Or.inl hin
        · rw [if_neg h2] at hin
          rcases List.mem_append.mp hin with ha | hb
          · exact Or.inl ha
          · right
            have ht : t = TsTypeInfo.mk (capGet m.caps "name")
                (if is_react_component (capGet m.caps "name") cnc then "component"
                 else "function") [] [] [] true := by simpa using hb
            rw [ht]
    · exact Or.inr hmem

/-- C4 counterexample.  "`full` retains everything including enum
bodies": extraction of a C# enum whose body even contains a
method-shaped declaration yields an empty member list under `full` —
`parse_type` skips member discovery entirely for the `enum` kind — while
the same body inside a `class` does produce the member.  So no enum
declaration ever has its members populated. -/
theorem C4_counterexample :
    (csharp_extract "f.cs" "enum E \x7b public void M() \x7b\x7d \x7d".toList "full").types =
      [⟨"E", "enum", [], [], [], false⟩]
    ∧ (csharp_extract "f.cs" "class E \x7b public void M() \x7b\x7d \x7d".toList "full").types.map
        (fun t => t.members) = [[⟨"M()", "method", false⟩]] := by
  decide

/-- C4 (amended).  Enum bodies are never populated at any depth (the C#
extractor skips member discovery for kind `enum`; every TypeScript type
of kind `enum` carries an empty member list).  Under `methods` the C#
extractor drops every method or property whose captured modifier group
contains a private or protected marker, and the TypeScript extractor
drops those whose captured modifier contains a private marker; under
`full` the visibility filter is off in both — the only members dropped
are accessors and constructor/lifecycle names. -/
theorem C4_visibility_and_enum_filtering :
    (∀ (name : String) (mStart mEnd : Nat) (content : List Char) (depth : String),
      csharp_type_members name "enum" mStart mEnd content depth = [])
    ∧ (∀ (cnc : List Char) (depth : String) (t : TsTypeInfo),
      t ∈ ts_file_types cnc depth → t.kind = "enum" → t.members = [])
    ∧ (∀ (tn : String) (m : RxMatch),
      (strContains (capGet m.caps "modifiers") "private" = true ∨
        strContains (capGet m.caps "modifiers") "protected" = true) →
      csMethodMember tn "methods" m = none ∧ csPropMember "methods" m = none)
    ∧ (∀ m : RxMatch, strContains (capGet m.caps "modifier") "private" = true →
      tsMethodMember "methods" m = none)
    ∧ (∀ (tn : String) (m : RxMatch), csMethodMember tn "full" m = none →
      capGet m.caps "name" = tn ∨
        capGet m.caps "name" ∈ (["get", "set", "add", "remove"] : List String))
    ∧ (∀ m : RxMatch, csPropMember "full" m =
      some ⟨capGet m.caps "name", "property", false⟩)
    ∧ (∀ m : RxMatch, tsMethodMember "full" m = none →
      capGet m.caps "name" ∈ (["constructor", "ngOnInit", "ngOnDestroy", "componentDidMount",
        "componentWillUnmount", "render", "get", "set"] : List String)) := by
  refine ⟨?_, ?_, ?_, ?_, ?_, ?_, ?_⟩
  · intro name mStart mEnd content depth
    unfold csharp_type_members
    simp
  · intro cnc depth t ht hk
    unfold ts_file_types at ht
    rcases tsArrow_fold_mem cnc _ _ t ht with hin | hmem
    · rcases List.mem_append.mp hin with h5 | hfc
      · rcases List.mem_append.mp h5 with h4 | hfn
        · rcases List.mem_append.mp h4 with h3 | hen
          · rcases List.mem_append.mp h3 with h2 | hal
            · rcases List.mem_append.mp h2 with hcl | hif
              · rcases List.mem_map.mp hcl with ⟨mm, _, hteq⟩
                exact absurd (hteq ▸ hk) (ts_parse_class_kind_ne_enum mm cnc depth)
              · rcases List.mem_map.mp hif with ⟨mm, _, hteq⟩
                rw [← hteq]
            · rcases List.mem_map.mp hal with ⟨mm, _, hteq⟩
              rw [← hteq]
          · rcases List.mem_map.mp hen with ⟨mm, _, hteq⟩
            rw [← hteq]
        · rcases List.mem_map.mp hfn with ⟨mm, _, hteq⟩
          rw [← hteq]
      · rcases List.mem_map.mp hfc with ⟨mm, _, hteq⟩
        rw [← hteq]
    · exact hmem
  · intro tn m h
    have hcond : (("methods" != "full") &&
        (strContains (capGet m.caps "modifiers") "private" ||
          strContains (capGet m.caps "modifiers") "protected")) = true := by
      rcases h with h | h <;> simp [h]
    constructor
    · unfold csMethodMember
      rw [if_pos hcond]
    · unfold csPropMember
      rw [if_pos hcond]
  · intro m h
    have hcond : (("methods" != "full") && strContains (capGet m.caps "modifier") "private")
        = true := by simp [h]
    unfold tsMethodMember
    rw [if_pos hcond]
  · intro tn m h
    simp only [csMethodMember, show (("full" != "full") = false) from by decide,
      Bool.false_and, Bool.false_eq_true, if_false] at h
    by_cases hn : (capGet m.caps "name" == tn || capGet m.caps "name" == "get" ||
        capGet m.caps "name" == "set" || capGet m.caps "name" == "add" ||
        capGet m.caps "name" == "remove") = true
    · simp only [Bool.or_eq_true, beq_iff_eq] at hn
      rcases hn with ((((h1 | h2) | h3) | h4) | h5)
      · exact Or.inl h1
      · exact Or.inr (by simp [h2])
      · exact Or.inr (by simp [h3])
      · exact Or.inr (by simp [h4])
      · exact Or.inr (by simp [h5])
    · rw [if_neg hn] at h
      exact absurd h (by simp)
  · intro m
    simp only [csPropMember, show (("full" != "full") = false) from by decide,
      Bool.false_and, Bool.false_eq_true, if_false]
  · intro m h
    simp only [tsMethodMember, show (("full" != "full") = false) from by decide,
      Bool.false_and, Bool.false_eq_true, if_false] at h
    by_cases hn : (["constructor", "ngOnInit", "ngOnDestroy", "componentDidMount",
        "componentWillUnmount", "render", "get", "set"] : List String).contains
          (capGet m.caps "name") = true
    · exact List.mem_of_elem_eq_true hn
    · rw [if_neg hn] at h
      exact absurd h (by simp)

/-- C4 witness: the amended contract applied at concrete matches — a
captured `private ` modifier is dropped under `methods` in both front
ends, and a concrete TypeScript enum type coming out of the pipeline
has no members. -/
theorem C4_visibility_and_enum_filtering_witness :
    csMethodMember "T" "methods" ⟨0, 0, [("modifiers", "private "), ("name", "F")]⟩ = none
    ∧ tsMethodMember "methods" ⟨0, 0, [("modifier", "private"), ("name", "F")]⟩ = none
    ∧ (⟨"E", "enum", [], [], [], false⟩ : TsTypeInfo).members = [] :=
  ⟨(C4_visibility_and_enum_filtering.2.2.1 "T"
      ⟨0, 0, [("modifiers", "private "), ("name", "F")]⟩ (Or.inl (by decide))).1,
   C4_visibility_and_enum_filtering.2.2.2.1
      ⟨0, 0, [("modifier", "private"), ("name", "F")]⟩ (by decide),
   C4_visibility_and_enum_filtering.2.1 ("enum E \x7b A \x7d".toList) "full"
      ⟨"E", "enum", [], [], [], false⟩ (by decide) rfl⟩



/-- C9 counterexample.  The TypeScript statistics line encodes no
member count at all: two runs whose aggregate models have the same file
and type counts but different member totals (1 vs 2) produce the same
trailing statistics comment. -/
theorem C9_counterexample :
    ts_stats (ts_walk "r" "methods" tsDefaultExcludes
        [⟨["a.ts"], some tsOneMethod⟩]).file_count
      (ts_walk "r" "methods" tsDefaultExcludes [⟨["a.ts"], some tsOneMethod⟩]).type_count =
    ts_stats (ts_walk "r" "methods" tsDefaultExcludes
        [⟨["a.ts"], some tsTwoMethods⟩]).file_count
      (ts_walk "r" "methods" tsDefaultExcludes [⟨["a.ts"], some tsTwoMethods⟩]).type_count
    ∧ ((ts_walk "r" "methods" tsDefaultExcludes
        [⟨["a.ts"], some tsOneMethod⟩]).files.map ts_total_members).sum = 1
    ∧ ((ts_walk "r" "methods" tsDefaultExcludes
        [⟨["a.ts"], some tsTwoMethods⟩]).files.map ts_total_members).sum = 2 := by
  decide

/-- C9 (amended).  Every run that passes the root-exists precondition
ends its output with the trailing machine-readable statistics comment
in the mapper's fixed textual pattern; the Python and C# patterns
encode the file, type/class and member/method counts, while the
TypeScript pattern encodes only the file and export (type) counts.  An
empty root yields all counts zero and an output consisting of the title
line and the statistics comment only. -/
theorem C9_stats_tail :
    (∀ (root : String) (files : List CsSrcFile) (depth excludeArg : String) (out : String),
      csharp_main true root files depth excludeArg = .ok out →
      ∃ fc tc mc, (csharp_stats fc tc mc).toList.IsSuffix out.toList)
    ∧ (∀ (root : String) (files : List PySrcFile) (depth excludeArg : String) (out : String),
      python_main true root files depth excludeArg = .ok out →
      ∃ fc cc mc, (python_stats fc cc mc).toList.IsSuffix out.toList)
    ∧ (∀ (root : String) (files : List TsSrcFile) (depth excludeArg : String) (out : String),
      ts_main true root files depth excludeArg = .ok out →
      ∃ fc tc, (ts_stats fc tc).toList.IsSuffix out.toList)
    ∧ csharp_main true "src" [] "methods" "" =
        .ok "### C#: src/\n<!-- C#: 0 files, 0 types, 0 members -->\n"
    ∧ python_main true "src" [] "methods" "" =
        .ok "### Python: src/\n<!-- Python: 0 files, 0 classes, 0 methods -->\n"
    ∧ ts_main true "src" [] "methods" "" =
        .ok "### TypeScript: src/\n<!-- TypeScript: 0 files, 0 exports -->\n" := by
  refine ⟨?_, ?_, ?_, by rfl, by rfl, by rfl⟩
  · intro root files depth excludeArg out hok
    simp only [csharp_main, Bool.not_true, Bool.false_eq_true, if_false, Except.ok.injEq] at hok
    set st := csharp_walk root depth
      (csDefaultExcludes ++ if (excludeArg != "") = true then pySplitChar excludeArg ',' else [])
      files with hst
    have hsuf : (csharp_stats st.file_count st.type_count st.member_count).toList.IsSuffix
        out.toList := by
      rw [← hok]
      rw [show ∀ a b : String, (a ++ b).toList = a.toList ++ b.toList from fun a b => rfl]
      exact List.suffix_append _ _
    exact ⟨st.file_count, st.type_count, st.member_count, hsuf⟩
  · intro root files depth excludeArg out hok
    simp only [python_main, Bool.not_true, Bool.false_eq_true, if_false, Except.ok.injEq] at hok
    set st := python_walk root depth
      (pyDefaultExcludes ++ if (excludeArg != "") = true then pySplitChar excludeArg ',' else [])
      files with hst
    have hsuf : (python_stats st.file_count st.class_count st.method_count).toList.IsSuffix
        out.toList := by
      rw [← hok]
      rw [show ∀ a b : String, (a ++ b).toList = a.toList ++ b.toList from fun a b => rfl]
      exact List.suffix_append _ _
    exact ⟨st.file_count, st.class_count, st.method_count, hsuf⟩
  · intro root files depth excludeArg out hok
    simp only [ts_main, Bool.not_true, Bool.false_eq_true, if_false, Except.ok.injEq] at hok
    set st := ts_walk root depth
      (tsDefaultExcludes ++ if (excludeArg != "") = true then pySplitChar excludeArg ',' else [])
      files with hst
    have hsuf : (ts_stats st.file_count st.type_count).toList.IsSuffix out.toList := by
      rw [← hok]
      rw [show ∀ a b : String, (a ++ b).toList = a.toList ++ b.toList from fun a b => rfl]
      exact List.suffix_append _ _
    exact ⟨st.file_count, st.type_count, hsuf⟩

/-- C9 witness: the statistics-tail property applied to the concrete
empty-root C# run, discharging its hypothesis with that run's output
equation. -/
theorem C9_stats_tail_witness :
    ∃ fc tc mc, (csharp_stats fc tc mc).toList.IsSuffix
      ("### C#: src/\n<!-- C#: 0 files, 0 types, 0 members -->\n" : String).toList :=
  C9_stats_tail.1 "src" [] "methods" ""
    "### C#: src/\n<!-- C#: 0 files, 0 types, 0 members -->\n" (by rfl)
